import Mathlib

/- Verification development for the zbus D-Bus codec core: the Structure
   wire-format codec (src/src/structure.rs), the bus-address resolver
   (src/zbus/src/address.rs) and the bus-name validator
   (src/zbus/src/bus_name.rs).

   The Rust code is shallowly embedded: byte buffers are `List Nat` (every
   byte written is < 256), machine integers are `Nat` bit patterns with
   explicit range side conditions, fallible functions return `Except`.
   Functions present in the provided source are translated from it;
   collaborator code that the source only calls (the `Variant` value type,
   `SharedData`, the generic `variant_type` scanner and codec dispatcher,
   the name validators) is modelled from the specification and marked
   `Modelled from the spec:` in its doc comment. -/

set_option maxHeartbeats 2000000

/-- Modelled from the spec: `EncodingFormat` (its definition is not under
src/). The spec lists the members {DBus, GVariant} but gives bit-exact wire
framing only for the DBus format (§6); the GVariant framing (offset tables)
is left unspecified, so only the DBus member is modelled and every theorem
quantifying over formats ranges over this type. -/
inductive EncodingFormat where
  | dbus
deriving Repr, DecidableEq

/-- Modelled from the spec: the codec error taxonomy (§7). `VariantError` is
not defined under src/; the kinds used by the structure codec are
InsufficientData, ExcessData, IncorrectType and InvalidUtf8. -/
inductive VariantError where
  | insufficientData
  | excessData
  | incorrectType
  | invalidUtf8
deriving Repr, DecidableEq

/-- Modelled from the spec: `SharedData` (§3), a triple
(buffer, absolute offset, length). `head n` narrows the length, `tail n`
advances the offset, `position` is the absolute offset used for alignment
math. -/
structure SharedData where
  buffer : List Nat
  pos : Nat
  len : Nat
deriving Repr, DecidableEq

def SharedData.position (d : SharedData) : Nat := d.pos

def SharedData.tail (d : SharedData) (n : Nat) : SharedData :=
  ⟨d.buffer, d.pos + n, d.len - n⟩

def SharedData.head (d : SharedData) (n : Nat) : SharedData :=
  ⟨d.buffer, d.pos, n⟩

/-- The bytes visible through the window of a `SharedData` view. -/
def SharedData.bytes (d : SharedData) : List Nat :=
  (d.buffer.drop d.pos).take d.len

/-- A view is well formed when its window lies inside its buffer. -/
def SharedData.WF (d : SharedData) : Prop :=
  d.pos + d.len ≤ d.buffer.length

/-- Modelled from the spec: alignment padding (§4.2) as computed by the
`VariantType::padding` helper (not under src/): the number of bytes needed
to round `pos` up to the next multiple of `a`. -/
def padOf (pos a : Nat) : Nat := (a - pos % a) % a

/-- Little-endian byte encoding of `n` on `k` bytes. -/
def leBytes : Nat → Nat → List Nat
  | 0, _ => []
  | k + 1, n => n % 256 :: leBytes k (n / 256)

/-- Little-endian value of a byte list. -/
def leVal : List Nat → Nat
  | [] => 0
  | b :: r => b + 256 * leVal r

/-- Modelled from the spec: the `Variant` tagged sum (§3), whose definition
is not under src/. Signed integers and the IEEE-754 double are represented
by their bit patterns; text payloads (string, object path, signature) are
their UTF-8 byte lists. The containers Array, DictEntry, Dict and the
nested-Variant type are omitted from the model: their codecs are likewise
not under src/ and the spec describes them only by analogy with the
structure codec (§4.4). -/
inductive Variant where
  | byte (v : Nat)
  | boolean (v : Bool)
  | int16 (v : Nat)
  | uint16 (v : Nat)
  | int32 (v : Nat)
  | uint32 (v : Nat)
  | int64 (v : Nat)
  | uint64 (v : Nat)
  | double (bits : Nat)
  | string (bs : List Nat)
  | objectPath (bs : List Nat)
  | signature (bs : List Nat)
  | unixFd (v : Nat)
  | struct (fields : List Variant)
deriving Repr

/-- Modelled from the spec: per-type alignment (§4.2, DBus format). -/
def Variant.alignment : Variant → Nat
  | .byte _ => 1
  | .boolean _ => 4
  | .int16 _ => 2
  | .uint16 _ => 2
  | .int32 _ => 4
  | .uint32 _ => 4
  | .int64 _ => 8
  | .uint64 _ => 8
  | .double _ => 8
  | .string _ => 4
  | .objectPath _ => 4
  | .signature _ => 1
  | .unixFd _ => 4
  | .struct _ => 8

mutual

/-- Modelled from the spec: `Variant::value_signature` — the dynamic
signature of a value (§3); a structure's signature is its children's
signatures concatenated inside parentheses. -/
def Variant.value_signature : Variant → List Char
  | .byte _ => ['y']
  | .boolean _ => ['b']
  | .int16 _ => ['n']
  | .uint16 _ => ['q']
  | .int32 _ => ['i']
  | .uint32 _ => ['u']
  | .int64 _ => ['x']
  | .uint64 _ => ['t']
  | .double _ => ['d']
  | .string _ => ['s']
  | .objectPath _ => ['o']
  | .signature _ => ['g']
  | .unixFd _ => ['h']
  | .struct fs => '(' :: fieldsSignature fs ++ [')']

/-- Concatenation of the value signatures of a field list. -/
def fieldsSignature : List Variant → List Char
  | [] => []
  | v :: r => v.value_signature ++ fieldsSignature r

end

/-- `Structure::signature` from src/src/structure.rs: "(" followed by every
field's value signature followed by ")". -/
def Structure.signature (fields : List Variant) : List Char :=
  '(' :: fieldsSignature fields ++ [')']

mutual

/-- Validity of a modelled Variant value: numeric bit patterns fit their
width, text payloads are byte lists of representable length, and every
structure (the Rust `Structure` type is a plain `Vec<Variant>`) that is to
round-trip is non-empty. In the Rust source all the numeric bounds hold by
construction of the machine types. -/
def Variant.validb : Variant → Bool
  | .byte v => decide (v < 2 ^ 8)
  | .boolean _ => true
  | .int16 v => decide (v < 2 ^ 16)
  | .uint16 v => decide (v < 2 ^ 16)
  | .int32 v => decide (v < 2 ^ 32)
  | .uint32 v => decide (v < 2 ^ 32)
  | .int64 v => decide (v < 2 ^ 64)
  | .uint64 v => decide (v < 2 ^ 64)
  | .double bits => decide (bits < 2 ^ 64)
  | .string bs => bs.all (fun b => decide (b < 256)) && decide (bs.length < 2 ^ 32)
  | .objectPath bs => bs.all (fun b => decide (b < 256)) && decide (bs.length < 2 ^ 32)
  | .signature bs => bs.all (fun b => decide (b < 256)) && decide (bs.length < 2 ^ 8)
  | .unixFd v => decide (v < 2 ^ 32)
  | .struct fs => !fs.isEmpty && validList fs

/-- Validity of every member of a field list. -/
def validList : List Variant → Bool
  | [] => true
  | v :: r => v.validb && validList r

end

mutual

/-- Modelled from the spec: `Variant::encode_value_into` (not under src/) —
append the value's alignment padding (zero-filled, §4.2) and then its
DBus-format payload (§6) to `bytes`. For a structure this is exactly
`Structure::encode_into` from src/src/structure.rs: align to 8, then encode
the fields in order. -/
def Variant.encode_value_into : Variant → List Nat → EncodingFormat → List Nat
  | .byte v, bytes, _ =>
      bytes ++ List.replicate (padOf bytes.length 1) 0 ++ leBytes 1 v
  | .boolean b, bytes, _ =>
      bytes ++ List.replicate (padOf bytes.length 4) 0 ++ leBytes 4 (if b then 1 else 0)
  | .int16 v, bytes, _ =>
      bytes ++ List.replicate (padOf bytes.length 2) 0 ++ leBytes 2 v
  | .uint16 v, bytes, _ =>
      bytes ++ List.replicate (padOf bytes.length 2) 0 ++ leBytes 2 v
  | .int32 v, bytes, _ =>
      bytes ++ List.replicate (padOf bytes.length 4) 0 ++ leBytes 4 v
  | .uint32 v, bytes, _ =>
      bytes ++ List.replicate (padOf bytes.length 4) 0 ++ leBytes 4 v
  | .int64 v, bytes, _ =>
      bytes ++ List.replicate (padOf bytes.length 8) 0 ++ leBytes 8 v
  | .uint64 v, bytes, _ =>
      bytes ++ List.replicate (padOf bytes.length 8) 0 ++ leBytes 8 v
  | .double bits, bytes, _ =>
      bytes ++ List.replicate (padOf bytes.length 8) 0 ++ leBytes 8 bits
  | .string bs, bytes, _ =>
      bytes ++ List.replicate (padOf bytes.length 4) 0 ++ (leBytes 4 bs.length ++ bs ++ [0])
  | .objectPath bs, bytes, _ =>
      bytes ++ List.replicate (padOf bytes.length 4) 0 ++ (leBytes 4 bs.length ++ bs ++ [0])
  | .signature bs, bytes, _ =>
      bytes ++ List.replicate (padOf bytes.length 1) 0 ++ (leBytes 1 bs.length ++ bs ++ [0])
  | .unixFd v, bytes, _ =>
      bytes ++ List.replicate (padOf bytes.length 4) 0 ++ leBytes 4 v
  | .struct fs, bytes, fmt =>
      encodeFieldsInto fs (bytes ++ List.replicate (padOf bytes.length 8) 0) fmt

/-- The loop body of `Structure::encode_into`: encode each field in
declaration order, each one aligning itself. -/
def encodeFieldsInto : List Variant → List Nat → EncodingFormat → List Nat
  | [], bytes, _ => bytes
  | v :: r, bytes, fmt => encodeFieldsInto r (v.encode_value_into bytes fmt) fmt

end

/-- `Structure::encode_into` from src/src/structure.rs: add the 8-byte
alignment padding, then encode every field in order (each field aligns
itself relative to the buffer produced so far). -/
def Structure.encode_into (fields : List Variant) (bytes : List Nat)
    (fmt : EncodingFormat) : List Nat :=
  encodeFieldsInto fields (bytes ++ List.replicate (padOf bytes.length 8) 0) fmt

mutual

/-- The position-independent payload of a value that starts at an
alignment-respecting offset: what `encode_value_into` appends after the
padding. -/
def encBody : Variant → List Nat
  | .byte v => leBytes 1 v
  | .boolean b => leBytes 4 (if b then 1 else 0)
  | .int16 v => leBytes 2 v
  | .uint16 v => leBytes 2 v
  | .int32 v => leBytes 4 v
  | .uint32 v => leBytes 4 v
  | .int64 v => leBytes 8 v
  | .uint64 v => leBytes 8 v
  | .double bits => leBytes 8 bits
  | .string bs => leBytes 4 bs.length ++ bs ++ [0]
  | .objectPath bs => leBytes 4 bs.length ++ bs ++ [0]
  | .signature bs => leBytes 1 bs.length ++ bs ++ [0]
  | .unixFd v => leBytes 4 v
  | .struct fs => encBodies fs 0

/-- The payload of a field sequence laid out from relative offset `off`
inside an 8-aligned region: each field's padding then its body. -/
def encBodies : List Variant → Nat → List Nat
  | [], _ => []
  | v :: r, off =>
      List.replicate (padOf off v.alignment) 0 ++ encBody v ++
        encBodies r (off + padOf off v.alignment + (encBody v).length)

end

/-- Modelled from the spec: the basic one-character signature codes the
scanner slices as a single byte (§4.1). -/
def basicSignatureChar (c : Char) : Bool :=
  c = 'y' || c = 'b' || c = 'n' || c = 'q' || c = 'i' || c = 'u' || c = 'x' ||
    c = 't' || c = 'd' || c = 's' || c = 'o' || c = 'g' || c = 'v' || c = 'h'

/-- Modelled from the spec: the scan of a container signature body until the
matching closer (§4.1, §4.7): the depth counter starts at 1 after the
opener; a nested opener of the same kind increments it for its own closer
only; reaching the end of the string before the closer is a premature end,
`InsufficientData`. Returns the body including the matching closer. -/
def scanClose (copen cclose : Char) : List Char → Nat → Except VariantError (List Char)
  | [], _ => .error .insufficientData
  | c :: rest, depth =>
    if c = cclose then
      if depth = 1 then .ok [c]
      else
        match scanClose copen cclose rest (depth - 1) with
        | .ok t => .ok (c :: t)
        | .error e => .error e
    else if c = copen then
      match scanClose copen cclose rest (depth + 1) with
      | .ok t => .ok (c :: t)
      | .error e => .error e
    else
      match scanClose copen cclose rest depth with
      | .ok t => .ok (c :: t)
      | .error e => .error e

/-- Modelled from the spec: the generic signature scanner
`variant_type::slice_signature` (not under src/), returning the leading
complete type of a signature (§4.1): one byte for a basic code, `a` plus
one complete child, a parenthesised struct, a braced dict entry; anything
else is `IncorrectType`, an empty input is a premature end. The dict-entry
body well-formedness check is omitted together with the Dict model. -/
def variant_type.slice_signature : List Char → Except VariantError (List Char)
  | [] => .error .insufficientData
  | c :: rest =>
    if basicSignatureChar c then .ok [c]
    else if c = 'a' then
      match variant_type.slice_signature rest with
      | .ok t => .ok ('a' :: t)
      | .error e => .error e
    else if c = '(' then
      match scanClose '(' ')' rest 1 with
      | .ok t => .ok ('(' :: t)
      | .error e => .error e
    else if c = '{' then
      match scanClose '{' '}' rest 1 with
      | .ok t => .ok ('{' :: t)
      | .error e => .error e
    else .error .incorrectType

theorem scanClose_length {copen cclose : Char} :
    ∀ {s : List Char} {d : Nat} {t : List Char},
      scanClose copen cclose s d = .ok t → 1 ≤ t.length ∧ t.length ≤ s.length := by
  intro s
  induction s with
  | nil => intro d t h; simp [scanClose] at h
  | cons c rest ih =>
    intro d t h
    simp only [scanClose] at h
    split at h
    · split at h
      · cases h; simp
      · revert h
        split
        · next u hu =>
            intro h; cases h
            have := ih hu
            simp at this ⊢; omega
        · intro h; cases h
    · split at h
      · revert h
        split
        · next u hu =>
            intro h; cases h
            have := ih hu
            simp at this ⊢; omega
        · intro h; cases h
      · revert h
        split
        · next u hu =>
            intro h; cases h
            have := ih hu
            simp at this ⊢; omega
        · intro h; cases h

theorem slice_signature_length :
    ∀ {s t : List Char}, variant_type.slice_signature s = .ok t →
      1 ≤ t.length ∧ t.length ≤ s.length := by
  intro s
  induction s with
  | nil => intro t h; simp [variant_type.slice_signature] at h
  | cons c rest ih =>
    intro t h
    simp only [variant_type.slice_signature] at h
    split at h
    · cases h; simp
    · split at h
      · revert h
        split
        · next u hu =>
            intro h; cases h
            have := ih hu
            simp at this ⊢; omega
        · intro h; cases h
      · split at h
        · revert h
          split
          · next u hu =>
              intro h; cases h
              have := scanClose_length hu
              simp at this ⊢; omega
          · intro h; cases h
        · split at h
          · revert h
            split
            · next u hu =>
                intro h; cases h
                have := scanClose_length hu
                simp at this ⊢; omega
            · intro h; cases h
          · cases h

/-- The depth the scanner reaches after passing over `s` from depth `d`
without ever closing the outermost container; `none` if it would close. -/
def scanFree (copen cclose : Char) : List Char → Nat → Option Nat
  | [], d => some d
  | c :: r, d =>
    if c = cclose then
      if d = 1 then none else scanFree copen cclose r (d - 1)
    else if c = copen then scanFree copen cclose r (d + 1)
    else scanFree copen cclose r d

theorem scanClose_close_one (copen cclose : Char) (r : List Char) :
    scanClose copen cclose (cclose :: r) 1 = .ok [cclose] := by
  simp [scanClose]

theorem scanClose_close_ne1 (copen cclose : Char) (r : List Char) {d : Nat} (hd : d ≠ 1) :
    scanClose copen cclose (cclose :: r) d =
      match scanClose copen cclose r (d - 1) with
      | .ok t => .ok (cclose :: t)
      | .error e => .error e := by
  simp [scanClose, hd]

theorem scanClose_open (copen cclose : Char) (r : List Char) (d : Nat)
    (hne : copen ≠ cclose) :
    scanClose copen cclose (copen :: r) d =
      match scanClose copen cclose r (d + 1) with
      | .ok t => .ok (copen :: t)
      | .error e => .error e := by
  simp [scanClose, hne]

theorem scanClose_other (copen cclose c : Char) (r : List Char) (d : Nat)
    (h1 : c ≠ cclose) (h2 : c ≠ copen) :
    scanClose copen cclose (c :: r) d =
      match scanClose copen cclose r d with
      | .ok t => .ok (c :: t)
      | .error e => .error e := by
  simp [scanClose, h1, h2]

theorem scanFree_close_ne1 (copen cclose : Char) (r : List Char) {d : Nat} (hd : d ≠ 1) :
    scanFree copen cclose (cclose :: r) d = scanFree copen cclose r (d - 1) := by
  simp [scanFree, hd]

theorem scanFree_open (copen cclose : Char) (r : List Char) (d : Nat)
    (hne : copen ≠ cclose) :
    scanFree copen cclose (copen :: r) d = scanFree copen cclose r (d + 1) := by
  simp [scanFree, hne]

theorem scanFree_other (copen cclose c : Char) (r : List Char) (d : Nat)
    (h1 : c ≠ cclose) (h2 : c ≠ copen) :
    scanFree copen cclose (c :: r) d = scanFree copen cclose r d := by
  simp [scanFree, h1, h2]

theorem scanClose_append {copen cclose : Char} (hoc : copen ≠ cclose) :
    ∀ {s : List Char} {d d' : Nat}, scanFree copen cclose s d = some d' →
      ∀ t, scanClose copen cclose (s ++ t) d =
        match scanClose copen cclose t d' with
        | .ok u => .ok (s ++ u)
        | .error e => .error e := by
  intro s
  induction s with
  | nil =>
    intro d d' h t
    simp [scanFree] at h
    subst h
    simp only [List.nil_append]
    cases hsc : scanClose copen cclose t d <;> simp
  | cons c r ih =>
    intro d d' h t
    by_cases hc : c = cclose
    · by_cases hd : d = 1
      · rw [hc, hd] at h
        simp [scanFree] at h
      · rw [hc] at h ⊢
        rw [scanFree_close_ne1 copen cclose r hd] at h
        rw [List.cons_append, scanClose_close_ne1 copen cclose (r ++ t) hd, ih h t]
        cases hsc : scanClose copen cclose t d' <;> simp
    · by_cases hco : c = copen
      · rw [hco] at h ⊢
        rw [scanFree_open copen cclose r d hoc] at h
        rw [List.cons_append, scanClose_open copen cclose (r ++ t) d hoc, ih h t]
        cases hsc : scanClose copen cclose t d' <;> simp
      · rw [scanFree_other copen cclose c r d hc hco] at h
        rw [List.cons_append, scanClose_other copen cclose c (r ++ t) d hc hco, ih h t]
        cases hsc : scanClose copen cclose t d' <;> simp

theorem scanFree_append {copen cclose : Char} (hoc : copen ≠ cclose) :
    ∀ {s : List Char} {d d' : Nat}, scanFree copen cclose s d = some d' →
      ∀ t, scanFree copen cclose (s ++ t) d = scanFree copen cclose t d' := by
  intro s
  induction s with
  | nil => intro d d' h t; simp [scanFree] at h; subst h; simp
  | cons c r ih =>
    intro d d' h t
    by_cases hc : c = cclose
    · by_cases hd : d = 1
      · rw [hc, hd] at h
        simp [scanFree] at h
      · rw [hc] at h ⊢
        rw [scanFree_close_ne1 copen cclose r hd] at h
        rw [List.cons_append, scanFree_close_ne1 copen cclose (r ++ t) hd]
        exact ih h t
    · by_cases hco : c = copen
      · rw [hco] at h ⊢
        rw [scanFree_open copen cclose r d hoc] at h
        rw [List.cons_append, scanFree_open copen cclose (r ++ t) d hoc]
        exact ih h t
      · rw [scanFree_other copen cclose c r d hc hco] at h
        rw [List.cons_append, scanFree_other copen cclose c (r ++ t) d hc hco]
        exact ih h t

theorem value_signature_ne_nil (v : Variant) : 1 ≤ v.value_signature.length := by
  cases v <;> simp [Variant.value_signature]

mutual

theorem value_signature_scanFree (v : Variant) :
    ∀ d, 1 ≤ d → scanFree '(' ')' v.value_signature d = some d := by
  intro d hd
  cases v <;> simp only [Variant.value_signature]
  case struct fs =>
    rw [List.cons_append]
    rw [scanFree_open '(' ')' (fieldsSignature fs ++ [')']) d (by decide)]
    rw [scanFree_append (by decide) (fieldsSignature_scanFree fs (d + 1) (by omega)) [')']]
    rw [scanFree_close_ne1 '(' ')' [] (by omega)]
    simp [scanFree]
  all_goals exact scanFree_other '(' ')' _ [] d (by decide) (by decide)

theorem fieldsSignature_scanFree (fs : List Variant) :
    ∀ d, 1 ≤ d → scanFree '(' ')' (fieldsSignature fs) d = some d := by
  intro d hd
  cases fs with
  | nil => simp [fieldsSignature, scanFree]
  | cons v r =>
    simp only [fieldsSignature]
    rw [scanFree_append (by decide) (value_signature_scanFree v d hd) (fieldsSignature r)]
    exact fieldsSignature_scanFree r d hd

end

theorem slice_signature_paren (t : List Char) :
    variant_type.slice_signature ('(' :: t) =
      match scanClose '(' ')' t 1 with
      | .ok u => .ok ('(' :: u)
      | .error e => .error e := by
  simp only [variant_type.slice_signature]
  simp
  exact fun hh => absurd hh (by decide)

theorem slice_signature_complete (v : Variant) (rest : List Char) :
    variant_type.slice_signature (v.value_signature ++ rest) = .ok v.value_signature := by
  cases v
  case struct fs =>
    simp only [Variant.value_signature]
    rw [List.append_assoc, List.cons_append, slice_signature_paren]
    rw [scanClose_append (by decide) (fieldsSignature_scanFree fs 1 le_rfl) ([')'] ++ rest)]
    rw [show ([')'] ++ rest : List Char) = ')' :: rest from rfl]
    rw [scanClose_close_one '(' ')' rest]
    simp
  all_goals rfl

/-- The loop of `Structure::ensure_correct_signature` from
src/src/structure.rs: starting from index 1, repeatedly slice one child
signature from the remaining tail (which still includes the final `)`)
while the index is below `signature.len() - 1`; `rem` is the remaining
tail, so the loop stops when at most the closing parenthesis is left. -/
def ecsLoop (rem : List Char) : Except VariantError Unit :=
  if rem.length ≤ 1 then .ok ()
  else
    match h : variant_type.slice_signature rem with
    | .error e => .error e
    | .ok cs => ecsLoop (rem.drop cs.length)
termination_by rem.length
decreasing_by
  have h1 := slice_signature_length h
  simp only [List.length_drop]
  omega

/-- `Structure::ensure_correct_signature` from src/src/structure.rs: the
signature must start with `(` and end with `)`, and the inside must consist
of well-formed child signatures. -/
def Structure.ensure_correct_signature (sig : List Char) : Except VariantError Unit :=
  if sig.head? ≠ some '(' ∨ sig.getLast? ≠ some ')' then .error .incorrectType
  else ecsLoop (sig.drop 1)

theorem ecsLoop_fields : ∀ fs : List Variant, ecsLoop (fieldsSignature fs ++ [')']) = .ok () := by
  intro fs
  induction fs with
  | nil => rw [ecsLoop]; simp [fieldsSignature]
  | cons v r ih =>
    rw [ecsLoop]
    have hv := value_signature_ne_nil v
    rw [if_neg (by simp [fieldsSignature]; omega)]
    have hslice : variant_type.slice_signature (fieldsSignature (v :: r) ++ [')']) =
        .ok v.value_signature := by
      simp only [fieldsSignature]
      rw [List.append_assoc]
      exact slice_signature_complete v (fieldsSignature r ++ [')'])
    simp only [fieldsSignature] at hslice ⊢
    rw [List.append_assoc]
    rw [List.append_assoc] at hslice
    split
    · next e he => rw [hslice] at he; cases he
    · next cs hcs =>
        rw [hslice] at hcs
        cases hcs
        rw [List.drop_left]
        exact ih

theorem ensure_correct_signature_ok (fs : List Variant) :
    Structure.ensure_correct_signature (Structure.signature fs) = .ok () := by
  unfold Structure.ensure_correct_signature Structure.signature
  rw [if_neg]
  · rw [List.cons_append, List.drop_succ_cons, List.drop_zero]
    exact ecsLoop_fields fs
  · simp only [not_or, not_not]
    constructor
    · simp
    · rw [List.cons_append, show (('(' : Char) :: (fieldsSignature fs ++ [')'])) =
        ('(' :: fieldsSignature fs) ++ [')'] from rfl]
      exact List.getLast?_concat _

/-- Modelled from the spec: wire size and alignment of the fixed-size basic
types in the DBus format (§4.2, §6). -/
def basicSizeAlign (c : Char) : Option (Nat × Nat) :=
  if c = 'y' then some (1, 1)
  else if c = 'b' then some (4, 4)
  else if c = 'n' then some (2, 2)
  else if c = 'q' then some (2, 2)
  else if c = 'i' then some (4, 4)
  else if c = 'u' then some (4, 4)
  else if c = 'x' then some (8, 8)
  else if c = 't' then some (8, 8)
  else if c = 'd' then some (8, 8)
  else if c = 'h' then some (4, 4)
  else none

/-- Read `k` bytes little-endian at window offset `off`. -/
def readLE (data : SharedData) (off k : Nat) : Nat :=
  leVal ((data.bytes.drop off).take k)

/-- Modelled from the spec: decoding a fixed-size basic value — skip the
alignment padding, then read the little-endian payload (§6). -/
def decodeFixed (data : SharedData) (sz al : Nat) : Except VariantError Nat :=
  let padding := padOf data.pos al
  if data.len < padding + sz then .error .insufficientData
  else .ok (readLE data padding sz)

/-- Modelled from the spec: decoding a string / object-path payload — a
uint32 length, the UTF-8 bytes, a trailing NUL not counted in the
length (§6). -/
def decodeStrPayload (data : SharedData) : Except VariantError (List Nat) :=
  let padding := padOf data.pos 4
  if data.len < padding + 4 then .error .insufficientData
  else
    let n := readLE data padding 4
    if data.len < padding + 4 + n + 1 then .error .insufficientData
    else .ok ((data.bytes.drop (padding + 4)).take n)

/-- Modelled from the spec: decoding a signature payload — a uint8 length,
the ASCII bytes, a trailing NUL (§6). -/
def decodeSigPayload (data : SharedData) : Except VariantError (List Nat) :=
  if data.len < 1 then .error .insufficientData
  else
    let n := readLE data 0 1
    if data.len < 1 + n + 1 then .error .insufficientData
    else .ok ((data.bytes.drop 1).take n)

mutual

/-- Modelled from the spec: the generic `variant_type::slice_data`
dispatcher (not under src/): dispatch on the leading signature character
and return the sub-view that starts at the view's position and covers the
alignment padding followed by one serialized value (§4.3); a `(` dispatches
to `Structure::slice_data`. Array, dict-entry and nested-variant dispatch
is omitted together with those types. -/
def variant_type.slice_data (data : SharedData) (sig : List Char)
    (fmt : EncodingFormat) : Except VariantError SharedData :=
  match sig with
  | [] => .error .insufficientData
  | c :: rest =>
    match basicSizeAlign c with
    | some (sz, al) =>
      let padding := padOf data.pos al
      if data.len < padding + sz then .error .insufficientData
      else .ok (data.head (padding + sz))
    | none =>
      if c = 's' ∨ c = 'o' then
        let padding := padOf data.pos 4
        if data.len < padding + 4 then .error .insufficientData
        else
          let n := readLE data padding 4
          if data.len < padding + 4 + n + 1 then .error .insufficientData
          else .ok (data.head (padding + 4 + n + 1))
      else if c = 'g' then
        if data.len < 1 then .error .insufficientData
        else
          let n := readLE data 0 1
          if data.len < 1 + n + 1 then .error .insufficientData
          else .ok (data.head (1 + n + 1))
      else if c = '(' then Structure.slice_data data (c :: rest) fmt
      else .error .incorrectType
termination_by 3 * sig.length + 1
decreasing_by simp_wf

/-- `Structure::slice_data` from src/src/structure.rs: compute the 8-byte
alignment padding from the view's position; fail with `InsufficientData`
when the view is shorter than the padding or the signature is shorter than
3 characters; check the signature; then walk the inner signature slicing
one child at a time, accumulating the consumed length starting from the
padding; `ExcessData` if nothing was accumulated; finally return
`data.head(extracted)`. -/
def Structure.slice_data (data : SharedData) (sig : List Char)
    (fmt : EncodingFormat) : Except VariantError SharedData :=
  let padding := padOf data.pos 8
  if h : data.len < padding ∨ sig.length < 3 then .error .insufficientData
  else
    match Structure.ensure_correct_signature sig with
    | .error e => .error e
    | .ok _ =>
      match structSliceLoop data ((sig.drop 1).dropLast) padding fmt with
      | .error e => .error e
      | .ok extracted =>
        if extracted = 0 then .error .excessData
        else .ok (data.head extracted)
termination_by 3 * sig.length
decreasing_by
  try simp_wf
  push_neg at h
  try simp only [List.length_dropLast, List.length_drop]
  omega

/-- The slicing loop of `Structure::slice_data`: `inner` is the not yet
consumed part of the signature between the outer parentheses
(`signature[i..last_index]` in the source). -/
def structSliceLoop (data : SharedData) (inner : List Char) (extracted : Nat)
    (fmt : EncodingFormat) : Except VariantError Nat :=
  match inner with
  | [] => .ok extracted
  | c0 :: rest0 =>
    match h : variant_type.slice_signature (c0 :: rest0) with
    | .error e => .error e
    | .ok childSig =>
      match variant_type.slice_data (data.tail extracted) childSig fmt with
      | .error e => .error e
      | .ok slice =>
        if data.len < extracted + slice.len then .error .insufficientData
        else structSliceLoop data ((c0 :: rest0).drop childSig.length) (extracted + slice.len) fmt
termination_by 3 * inner.length + 2
decreasing_by
  all_goals
    try simp_wf
    have hlen := slice_signature_length h
    try simp only [List.length_drop, List.length_cons] at hlen ⊢
    omega

/-- Modelled from the spec: the generic `Variant::from_data` (not under
src/): dispatch on the leading signature character and parse one value
(§6); a `(` dispatches to `Structure::decode` and wraps the fields. Array,
dict-entry and nested-variant dispatch is omitted together with those
types. -/
def Variant.from_data (data : SharedData) (sig : List Char)
    (fmt : EncodingFormat) : Except VariantError Variant :=
  match sig with
  | [] => .error .insufficientData
  | c :: rest =>
    if c = 'y' then
      match decodeFixed data 1 1 with
      | .error e => .error e
      | .ok n => .ok (.byte n)
    else if c = 'b' then
      match decodeFixed data 4 4 with
      | .error e => .error e
      | .ok n =>
        if n = 0 then .ok (.boolean false)
        else if n = 1 then .ok (.boolean true)
        else .error .incorrectType
    else if c = 'n' then
      match decodeFixed data 2 2 with
      | .error e => .error e
      | .ok n => .ok (.int16 n)
    else if c = 'q' then
      match decodeFixed data 2 2 with
      | .error e => .error e
      | .ok n => .ok (.uint16 n)
    else if c = 'i' then
      match decodeFixed data 4 4 with
      | .error e => .error e
      | .ok n => .ok (.int32 n)
    else if c = 'u' then
      match decodeFixed data 4 4 with
      | .error e => .error e
      | .ok n => .ok (.uint32 n)
    else if c = 'x' then
      match decodeFixed data 8 8 with
      | .error e => .error e
      | .ok n => .ok (.int64 n)
    else if c = 't' then
      match decodeFixed data 8 8 with
      | .error e => .error e
      | .ok n => .ok (.uint64 n)
    else if c = 'd' then
      match decodeFixed data 8 8 with
      | .error e => .error e
      | .ok n => .ok (.double n)
    else if c = 'h' then
      match decodeFixed data 4 4 with
      | .error e => .error e
      | .ok n => .ok (.unixFd n)
    else if c = 's' then
      match decodeStrPayload data with
      | .error e => .error e
      | .ok bs => .ok (.string bs)
    else if c = 'o' then
      match decodeStrPayload data with
      | .error e => .error e
      | .ok bs => .ok (.objectPath bs)
    else if c = 'g' then
      match decodeSigPayload data with
      | .error e => .error e
      | .ok bs => .ok (.signature bs)
    else if c = '(' then
      match Structure.decode data (c :: rest) fmt with
      | .error e => .error e
      | .ok fields => .ok (.struct fields)
    else .error .incorrectType
termination_by 3 * sig.length + 1
decreasing_by simp_wf

/-- `Structure::decode` from src/src/structure.rs: same prologue as
`slice_data`; then skip the padding (`data.tail(padding)`) and build the
field variants from the inner signature (the body of
`variants_from_struct_data`, inlined here; the standalone definition below
is the same loop). -/
def Structure.decode (data : SharedData) (sig : List Char)
    (fmt : EncodingFormat) : Except VariantError (List Variant) :=
  let padding := padOf data.pos 8
  if h : data.len < padding ∨ sig.length < 3 then .error .insufficientData
  else
    match Structure.ensure_correct_signature sig with
    | .error e => .error e
    | .ok _ =>
      match structDecodeLoop (data.tail padding) ((sig.drop 1).dropLast) 0 [] fmt with
      | .error e => .error e
      | .ok (extracted, fields) =>
        if extracted = 0 then .error .excessData
        else .ok fields
termination_by 3 * sig.length
decreasing_by
  try simp_wf
  push_neg at h
  try simp only [List.length_dropLast, List.length_drop]
  omega

/-- The loop of `variants_from_struct_data` from src/src/structure.rs:
slice the next child, check the accumulated length, decode the child from
its slice, and continue. -/
def structDecodeLoop (data : SharedData) (inner : List Char) (extracted : Nat)
    (fields : List Variant) (fmt : EncodingFormat) :
    Except VariantError (Nat × List Variant) :=
  match inner with
  | [] => .ok (extracted, fields)
  | c0 :: rest0 =>
    match h : variant_type.slice_signature (c0 :: rest0) with
    | .error e => .error e
    | .ok childSig =>
      match variant_type.slice_data (data.tail extracted) childSig fmt with
      | .error e => .error e
      | .ok childSlice =>
        if data.len < extracted + childSlice.len then .error .insufficientData
        else
          match Variant.from_data childSlice childSig fmt with
          | .error e => .error e
          | .ok v =>
            structDecodeLoop data ((c0 :: rest0).drop childSig.length)
              (extracted + childSlice.len) (fields ++ [v]) fmt
termination_by 3 * inner.length + 2
decreasing_by
  all_goals
    try simp_wf
    have hlen := slice_signature_length h
    try simp only [List.length_drop, List.length_cons] at hlen ⊢
    omega

end

/-- `variants_from_struct_data` from src/src/structure.rs, as a standalone
definition: run the decode loop over the inner signature and reject an
empty extraction as `ExcessData`. -/
def variants_from_struct_data (data : SharedData) (sig : List Char)
    (fmt : EncodingFormat) : Except VariantError (List Variant) :=
  match structDecodeLoop data ((sig.drop 1).dropLast) 0 [] fmt with
  | .error e => .error e
  | .ok (extracted, fields) =>
    if extracted = 0 then .error .excessData
    else .ok fields

/-- Outcome of `Structure::slice_signature`: a successful slice, an error
return, or a Rust panic (the source indexes `signature[i..i + 1]`, which
aborts when the byte range is out of bounds). -/
inductive SliceSigOutcome where
  | ok (s : List Char)
  | err (e : VariantError)
  | panicked
deriving Repr, DecidableEq

/-- The scanning loop of `Structure::slice_signature` from
src/src/structure.rs, together with the check that follows it: starting at
`i = 1` with `open_braces = 1`, a `)` decrements the counter and breaks at
zero, a `(` increments it. After the loop the source evaluates
`&signature[i..i + 1]`: when the loop broke this is the matching `)` and
the slice `signature[0..i + 1]` is returned; when the loop instead ran off
the end (`i == signature.len()`), the byte-range index is out of bounds and
the program panics — the `IncorrectType` return after the loop is
unreachable. Signatures are ASCII, so one `char` is one byte. -/
def sliceSigLoop (sig : List Char) : List Char → Nat → Nat → SliceSigOutcome
  | [], _, _ => .panicked
  | c :: rem, i, open_braces =>
    if c = ')' then
      if open_braces - 1 = 0 then .ok (sig.take (i + 1))
      else sliceSigLoop sig rem (i + 1) (open_braces - 1)
    else if c = '(' then sliceSigLoop sig rem (i + 1) (open_braces + 1)
    else sliceSigLoop sig rem (i + 1) open_braces

/-- `Structure::slice_signature` from src/src/structure.rs: reject an input
that does not start with `(`, otherwise run the brace-matching loop; the
loop walks the characters after the opener (`rem = sig.drop i`, so the
`i < signature.len()` test of the source is `rem ≠ []`). -/
def Structure.slice_signature (sig : List Char) : SliceSigOutcome :=
  if sig.head? = some '(' then sliceSigLoop sig (sig.drop 1) 1 1
  else .err .incorrectType

/-- A `tcp:` address family (src/zbus/src/address.rs). -/
inductive TcpAddressFamily where
  | ipv4
  | ipv6
deriving Repr, DecidableEq

/-- A `tcp:` D-Bus address (src/zbus/src/address.rs). -/
structure TcpAddress where
  host : String
  bind : Option String
  port : Nat
  family : Option TcpAddressFamily
deriving Repr, DecidableEq

/-- A bus address (src/zbus/src/address.rs). `OsString` is modelled as
`String`; an abstract socket is a path starting with a NUL character. -/
inductive Address where
  | unix (path : String)
  | tcp (t : TcpAddress)
deriving Repr, DecidableEq

/-- Split the first occurrence of `sep` off a character list: `none` when
`sep` does not occur (Rust's `find` returning `None`), otherwise the parts
before and after it. -/
def splitFirst (sep : Char) : List Char → Option (List Char × List Char)
  | [] => none
  | c :: r =>
    if c = sep then some ([], r)
    else
      match splitFirst sep r with
      | none => none
      | some (a, b) => some (c :: a, b)

/-- Split a character list on every occurrence of `sep`, like Rust's
`str::split`: an empty input yields one empty token. -/
def splitOnChar (sep : Char) : List Char → List (List Char)
  | [] => [[]]
  | c :: r =>
    if c = sep then [] :: splitOnChar sep r
    else
      match splitOnChar sep r with
      | [] => [[c]]
      | t :: ts => (c :: t) :: ts

/-- The option-parsing loop of `Address::from_str`: each comma token must
contain `=`; inserting a key already present fails, like
`HashMap::insert` returning `Some`. -/
def parseOptions : List (List Char) → List (String × String) →
    Except String (List (String × String))
  | [], acc => .ok acc
  | kv :: rest, acc =>
    match splitFirst '=' kv with
    | none => .error "missing = when parsing key/value"
    | some (k, v) =>
      let ks := String.mk k
      if acc.any (fun p => p.1 == ks) then
        .error ("Key `" ++ ks ++ "` specified multiple times")
      else parseOptions rest (acc ++ [(ks, String.mk v)])

/-- Lookup in the parsed options, like `HashMap::get` (keys are unique by
construction). -/
def optGet (opts : List (String × String)) (k : String) : Option String :=
  match opts.find? (fun p => p.1 == k) with
  | some p => some p.2
  | none => none

/-- `Address::from_unix` from src/zbus/src/address.rs: `abstract` wins and
conflicts with `path`; an abstract name is prefixed with a NUL; with
neither key the address is rejected. -/
def Address.from_unix (opts : List (String × String)) : Except String Address :=
  match optGet opts "abstract" with
  | some abs =>
    if (optGet opts "path").isSome then
      .error "`path` and `abstract` cannot be specified together"
    else .ok (.unix (String.mk ('\x00' :: abs.data)))
  | none =>
    match optGet opts "path" with
    | some p => .ok (.unix p)
    | none => .error "unix address is missing path or abstract"

/-- Rust's `str::parse::<u16>` as used for the `port` value: an optional
leading `+`, then one or more decimal digits, value below 2^16. -/
def parsePort (s : String) : Option Nat :=
  let ds :=
    match s.data with
    | '+' :: r => r
    | r => r
  if ds.isEmpty then none
  else if ds.all (fun c => c.isDigit) then
    let n := ds.foldl (fun a c => a * 10 + (c.toNat - '0'.toNat)) 0
    if n < 65536 then some n else none
  else none

/-- `TcpAddressFamily::from_str` from src/zbus/src/address.rs. -/
def TcpAddressFamily.from_str (family : String) : Except String TcpAddressFamily :=
  if family == "ipv4" then .ok .ipv4
  else if family == "ipv6" then .ok .ipv6
  else .error ("invalid tcp address `family`: " ++ family)

/-- `Address::from_tcp` from src/zbus/src/address.rs: `bind` is rejected;
`host` and `port` are required; `port` must parse as u16; `family` is
optional. -/
def Address.from_tcp (opts : List (String × String)) : Except String Address :=
  if (optGet opts "bind").isSome then .error "`bind` isn't yet supported"
  else
    match optGet opts "host" with
    | none => .error "tcp address is missing `host`"
    | some host =>
      match optGet opts "port" with
      | none => .error "tcp address is missing `port`"
      | some ps =>
        match parsePort ps with
        | none => .error "invalid tcp `port`"
        | some port =>
          match optGet opts "family" with
          | none => .ok (.tcp ⟨host, none, port, none⟩)
          | some fs =>
            match TcpAddressFamily.from_str fs with
            | .error e => .error e
            | .ok fam => .ok (.tcp ⟨host, none, port, some fam⟩)

/-- `Address::from_str` from src/zbus/src/address.rs: split on the first
colon, parse the comma-separated key/value options, then dispatch on the
transport. The `Error::Address(msg)` variant is modelled as the message
string itself. -/
def Address.from_str (address : String) : Except String Address :=
  match splitFirst ':' address.data with
  | none => .error "address has no colon"
  | some (transport, rest) =>
    match parseOptions (splitOnChar ',' rest) [] with
    | .error e => .error e
    | .ok options =>
      if String.mk transport == "unix" then Address.from_unix options
      else if String.mk transport == "tcp" then Address.from_tcp options
      else .error ("unsupported transport '" ++ String.mk transport ++ "'")

/-- Modelled from the spec: the character class allowed in a bus-name
element (§4.6): `A–Z a–z 0–9 _ -`. -/
def nameChar (c : Char) : Bool :=
  ('A' ≤ c && c ≤ 'Z') || ('a' ≤ c && c ≤ 'z') || c.isDigit || c = '_' || c = '-'

/-- Modelled from the spec: one dot-separated element of a bus name (§4.6):
non-empty, characters from `nameChar`, and — unless digits are permitted at
element starts, as they are for unique names — not starting with a digit. -/
def validElement (allowDigitStart : Bool) (e : List Char) : Bool :=
  match e with
  | [] => false
  | c :: r => (nameChar c && (allowDigitStart || !c.isDigit)) && r.all nameChar

/-- Modelled from the spec: the unique-name validator `UniqueName::try_from`
delegates to (not under src/), as a diagnostic-producing check (§4.6): a
leading `:`; after stripping it, dot-separated elements, at least two of
them, each valid with digit starts permitted; total length at most 255.
`none` means valid; the diagnostic strings themselves are not fixed by the
spec. -/
def UniqueName.validate (s : String) : Option String :=
  match s.data with
  | ':' :: rest =>
    if s.length > 255 then some "name exceeds the maximum length of 255"
    else
      let elems := splitOnChar '.' rest
      if elems.length < 2 then some "must contain at least one dot"
      else if elems.all (validElement true) then none
      else some "elements must be non-empty and contain only the characters A-Z a-z 0-9 _ -"
  | _ => some "must start with a colon"

/-- Modelled from the spec: the well-known-name validator
`WellKnownName::try_from` delegates to (§4.6): dot-separated elements, at
least two, each valid and not starting with a digit; total length at most
255. `none` means valid. -/
def WellKnownName.validate (s : String) : Option String :=
  if s.length > 255 then some "name exceeds the maximum length of 255"
  else
    let elems := splitOnChar '.' s.data
    if elems.length < 2 then some "must contain at least one dot"
    else if elems.all (validElement false) then none
    else some "elements must be non-empty, not start with a digit and contain only the characters A-Z a-z 0-9 _ -"

/-- The name-error variants of the zbus `Error` type that bus-name parsing
produces: `InvalidUniqueName`, `InvalidWellKnownName` and the compound
`InvalidBusName` carrying both diagnostics. -/
inductive NameError where
  | invalidUniqueName (d : String)
  | invalidWellKnownName (d : String)
  | invalidBusName (du dw : String)
deriving Repr, DecidableEq

/-- A bus name: unique (`:…`) or well-known (src/zbus/src/bus_name.rs). -/
inductive BusName where
  | unique (name : String)
  | wellKnown (name : String)
deriving Repr, DecidableEq

/-- Whether a parsed bus name is the Unique variant. -/
def BusName.isUnique : BusName → Bool
  | .unique _ => true
  | .wellKnown _ => false

/-- Modelled from the spec: `UniqueName::try_from` (not under src/),
returning the validated string or `InvalidUniqueName`. -/
def UniqueName.try_from (s : String) : Except NameError String :=
  match UniqueName.validate s with
  | some d => .error (.invalidUniqueName d)
  | none => .ok s

/-- Modelled from the spec: `WellKnownName::try_from` (not under src/),
returning the validated string or `InvalidWellKnownName`. -/
def WellKnownName.try_from (s : String) : Except NameError String :=
  match WellKnownName.validate s with
  | some d => .error (.invalidWellKnownName d)
  | none => .ok s

/-- `BusName::try_from(&str)` from src/zbus/src/bus_name.rs: try the unique
form; on `InvalidUniqueName` try the well-known form; when both validators
reject, return the compound `InvalidBusName` carrying both diagnostics. -/
def BusName.try_from (value : String) : Except NameError BusName :=
  match UniqueName.try_from value with
  | .error (.invalidUniqueName unique_err) =>
    match WellKnownName.try_from value with
    | .error (.invalidWellKnownName well_known_err) =>
      .error (.invalidBusName unique_err well_known_err)
    | .error e => .error e
    | .ok name => .ok (.wellKnown name)
  | .error e => .error e
  | .ok name => .ok (.unique name)

theorem slice_decode_short_sig (data : SharedData) (fmt : EncodingFormat)
    (sig : List Char) (h : sig.length < 3) :
    Structure.slice_data data sig fmt = .error .insufficientData ∧
      Structure.decode data sig fmt = .error .insufficientData := by
  constructor
  · rw [Structure.slice_data]
    simp [h]
  · rw [Structure.decode]
    simp [h]

/-- Claim C4: for every data view and format, `Structure::slice_data` and
`Structure::decode` fail with `InsufficientData` whenever the signature has
length below 3; in particular the empty struct signature `()` is rejected
with `InsufficientData`. -/
theorem short_signature_insufficient (data : SharedData) (fmt : EncodingFormat)
    (sig : List Char) (h : sig.length < 3) :
    Structure.slice_data data sig fmt = .error .insufficientData ∧
      Structure.decode data sig fmt = .error .insufficientData :=
  slice_decode_short_sig data fmt sig h

/-- Witness for C4 at the empty struct signature `()` on an empty view. -/
theorem short_signature_insufficient_witness :
    (['(', ')'] : List Char).length < 3 ∧
      Structure.slice_data ⟨[], 0, 0⟩ ['(', ')'] .dbus = .error .insufficientData ∧
      Structure.decode ⟨[], 0, 0⟩ ['(', ')'] .dbus = .error .insufficientData :=
  ⟨by decide, short_signature_insufficient ⟨[], 0, 0⟩ .dbus ['(', ')'] (by decide)⟩

/-- Claim C6: on an input that starts with `(` but has no matching `)` the
source's `Structure::slice_signature` does not return `IncorrectType`: the
post-loop index check `&signature[i..i + 1]` is evaluated with
`i == signature.len()` and the byte-range indexing panics (the
`IncorrectType` return after the loop is unreachable). An input that does
not start with `(` does return `IncorrectType`. -/
theorem slice_signature_unmatched_panics :
    Structure.slice_signature "(i".data = .panicked ∧
      Structure.slice_signature "(".data = .panicked ∧
      Structure.slice_signature "(i(y)".data = .panicked ∧
      Structure.slice_signature "x".data = .err .incorrectType ∧
      Structure.slice_signature "".data = .err .incorrectType := by
  refine ⟨rfl, rfl, rfl, rfl, rfl⟩

/-- Claim C7: `Address::from_str` produces exactly the enumerated error
messages, byte for byte, on each of the seven malformed inputs. -/
theorem address_error_messages :
    Address.from_str "" = .error "address has no colon" ∧
      Address.from_str "foo:opt" = .error "missing = when parsing key/value" ∧
      Address.from_str "foo:opt=1,opt=2" = .error "Key `opt` specified multiple times" ∧
      Address.from_str "tcp:host=localhost" = .error "tcp address is missing `port`" ∧
      Address.from_str "tcp:host=localhost,port=32f" = .error "invalid tcp `port`" ∧
      Address.from_str "tcp:host=localhost,port=123,family=ipv7" =
        .error "invalid tcp address `family`: ipv7" ∧
      Address.from_str "unix:path=/tmp,abstract=foo" =
        .error "`path` and `abstract` cannot be specified together" := by
  refine ⟨rfl, rfl, rfl, rfl, rfl, rfl, rfl⟩

/-- Claim C8: for the unix transport exactly one of `path` and `abstract`
is required: only `path=P` yields `Unix(P)`; only `abstract=A` yields a
NUL-prefixed payload; both together fail; neither fails; other keys are
ignored, so `unix:path=/tmp/dbus-foo,guid=123` parses to
`Unix("/tmp/dbus-foo")`. -/
theorem address_unix_options :
    (∀ (opts : List (String × String)) (P : String),
        optGet opts "abstract" = none → optGet opts "path" = some P →
          Address.from_unix opts = .ok (.unix P)) ∧
      (∀ (opts : List (String × String)) (A : String),
        optGet opts "abstract" = some A → optGet opts "path" = none →
          Address.from_unix opts = .ok (.unix (String.mk ('\x00' :: A.data)))) ∧
      (∀ (opts : List (String × String)) (A P : String),
        optGet opts "abstract" = some A → optGet opts "path" = some P →
          Address.from_unix opts =
            .error "`path` and `abstract` cannot be specified together") ∧
      (∀ opts : List (String × String),
        optGet opts "abstract" = none → optGet opts "path" = none →
          Address.from_unix opts = .error "unix address is missing path or abstract") ∧
      Address.from_str "unix:path=/tmp/dbus-foo,guid=123" = .ok (.unix "/tmp/dbus-foo") := by
  refine ⟨?_, ?_, ?_, ?_, rfl⟩
  · intro opts P h1 h2
    rw [Address.from_unix, h1, h2]
  · intro opts A h1 h2
    rw [Address.from_unix, h1, h2]
    rfl
  · intro opts A P h1 h2
    rw [Address.from_unix, h1, h2]
    rfl
  · intro opts h1 h2
    rw [Address.from_unix, h1, h2]

/-- Witness for C8: a path-only option set parses to that unix path. -/
theorem address_unix_options_witness :
    Address.from_unix [("path", "/tmp")] = .ok (.unix "/tmp") :=
  address_unix_options.1 [("path", "/tmp")] "/tmp" rfl rfl

/-- Claim C10: `Structure::ensure_correct_signature` accepts the empty
struct signature `()` (its child loop runs zero times) even though
`Structure::slice_data` and `Structure::decode` reject every signature
shorter than 3 characters with `InsufficientData`, so a signature accepted
by `ensure_correct_signature` need not be decodable. -/
theorem ensure_accepts_empty_struct_signature :
    Structure.ensure_correct_signature ['(', ')'] = .ok () ∧
      ∀ (data : SharedData) (fmt : EncodingFormat),
        Structure.slice_data data ['(', ')'] fmt = .error .insufficientData ∧
          Structure.decode data ['(', ')'] fmt = .error .insufficientData := by
  constructor
  · rw [Structure.ensure_correct_signature]
    norm_num
    rw [ecsLoop]
    norm_num
  · intro data fmt
    exact slice_decode_short_sig data fmt ['(', ')'] (by decide)

/-- Counterexample to claim C1 as stated: the empty structure encodes to
the empty byte string, but decoding it back with its own signature `()`
fails with `InsufficientData` instead of returning the structure. -/
theorem empty_structure_decode_fails :
    Structure.encode_into [] [] .dbus = [] ∧
      Structure.signature [] = ['(', ')'] ∧
      Structure.decode ⟨[], 0, 0⟩ (Structure.signature []) .dbus =
        .error .insufficientData := by
  refine ⟨rfl, rfl, ?_⟩
  exact (slice_decode_short_sig ⟨[], 0, 0⟩ .dbus (Structure.signature []) (by decide)).2

/-- Counterexample to claim C2 as stated: the empty structure encodes to
the empty byte string, but `Structure::slice_data` on that encoding with
its own signature `()` fails with `InsufficientData` instead of returning a
slice. -/
theorem empty_structure_slice_fails :
    Structure.encode_into [] [] .dbus = [] ∧
      Structure.signature [] = ['(', ')'] ∧
      Structure.slice_data ⟨[], 0, 0⟩ (Structure.signature []) .dbus =
        .error .insufficientData := by
  refine ⟨rfl, rfl, ?_⟩
  exact (slice_decode_short_sig ⟨[], 0, 0⟩ .dbus (Structure.signature []) (by decide)).1

/-- Counterexample to claim C5 as stated: on the zero-children structure
signature `()` both `Structure::slice_data` and `Structure::decode` fail
with `InsufficientData`, not `ExcessData` — the length check fires before
the `extracted == 0` check can. -/
theorem zero_children_not_excess_data :
    Structure.slice_data ⟨[], 0, 0⟩ ['(', ')'] .dbus = .error .insufficientData ∧
      Structure.decode ⟨[], 0, 0⟩ ['(', ')'] .dbus = .error .insufficientData ∧
      VariantError.insufficientData ≠ VariantError.excessData := by
  refine ⟨?_, ?_, by decide⟩
  · exact (slice_decode_short_sig ⟨[], 0, 0⟩ .dbus ['(', ')'] (by decide)).1
  · exact (slice_decode_short_sig ⟨[], 0, 0⟩ .dbus ['(', ')'] (by decide)).2

theorem splitOnChar_ne_nil (sep : Char) (l : List Char) : splitOnChar sep l ≠ [] := by
  cases l with
  | nil => simp [splitOnChar]
  | cons c r =>
    rw [splitOnChar]
    split
    · simp
    · split <;> simp

theorem unique_validate_colon (s : String) (h : UniqueName.validate s = none) :
    s.data.head? = some ':' := by
  unfold UniqueName.validate at h
  split at h
  · next rest heq => rw [heq]; rfl
  · exact Option.noConfusion h

theorem wellKnown_validate_no_colon (s : String) (h : WellKnownName.validate s = none) :
    s.data.head? ≠ some ':' := by
  intro hc
  obtain ⟨rest, hs⟩ : ∃ rest, s.data = ':' :: rest := by
    cases hd : s.data with
    | nil => rw [hd] at hc; exact Option.noConfusion hc
    | cons a r =>
      rw [hd] at hc
      simp at hc
      subst hc
      exact ⟨r, rfl⟩
  unfold WellKnownName.validate at h
  split_ifs at h with h1
  obtain ⟨t, ts, hts⟩ : ∃ t ts, splitOnChar '.' rest = t :: ts := by
    cases hsp : splitOnChar '.' rest with
    | nil => exact absurd hsp (splitOnChar_ne_nil '.' rest)
    | cons t ts => exact ⟨t, ts, rfl⟩
  rw [hs] at h
  rw [show splitOnChar '.' (':' :: rest) = (':' :: t) :: ts by
    rw [splitOnChar, if_neg (by decide), hts]] at h
  have hval : validElement false (':' :: t) = false := by
    simp [validElement, nameChar]
  simp [hval] at h
  split_ifs at h

/-- Claim C9: `BusName::try_from` classifies by the first character — a
successfully parsed name is Unique exactly when the input starts with `:`;
`":x.y"` parses as Unique and `"x.y"` as WellKnown; each of the invalid
inputs `""`, `"."`, `".a.b"`, `"1a.b"`, `"no-dots"`, `"a..b"` is rejected
with the compound `InvalidBusName` error carrying both the unique-name and
the well-known-name diagnostics. -/
theorem bus_name_classification :
    (∀ (s : String) (r : BusName), BusName.try_from s = .ok r →
        (r.isUnique = true ↔ s.data.head? = some ':')) ∧
      BusName.try_from ":x.y" = .ok (.unique ":x.y") ∧
      BusName.try_from "x.y" = .ok (.wellKnown "x.y") ∧
      (∃ du dw, BusName.try_from "" = .error (.invalidBusName du dw)) ∧
      (∃ du dw, BusName.try_from "." = .error (.invalidBusName du dw)) ∧
      (∃ du dw, BusName.try_from ".a.b" = .error (.invalidBusName du dw)) ∧
      (∃ du dw, BusName.try_from "1a.b" = .error (.invalidBusName du dw)) ∧
      (∃ du dw, BusName.try_from "no-dots" = .error (.invalidBusName du dw)) ∧
      (∃ du dw, BusName.try_from "a..b" = .error (.invalidBusName du dw)) := by
  refine ⟨?_, rfl, rfl, ⟨_, _, rfl⟩, ⟨_, _, rfl⟩, ⟨_, _, rfl⟩, ⟨_, _, rfl⟩,
    ⟨_, _, rfl⟩, ⟨_, _, rfl⟩⟩
  intro s r h
  unfold BusName.try_from UniqueName.try_from WellKnownName.try_from at h
  cases huv : UniqueName.validate s with
  | none =>
    rw [huv] at h
    simp at h
    rw [← h]
    simp [BusName.isUnique, unique_validate_colon s huv]
  | some du =>
    rw [huv] at h
    cases hwv : WellKnownName.validate s with
    | none =>
      rw [hwv] at h
      simp at h
      rw [← h]
      simp [BusName.isUnique]
      exact wellKnown_validate_no_colon s hwv
    | some dw =>
      rw [hwv] at h
      simp at h

/-- Witness for C9: the classification instantiated at the Unique example. -/
theorem bus_name_classification_witness :
    (BusName.unique ":x.y").isUnique = true ↔ ":x.y".data.head? = some ':' :=
  bus_name_classification.1 ":x.y" (.unique ":x.y") rfl

theorem padOf_lt (p : Nat) {a : Nat} (ha : 0 < a) : padOf p a < a :=
  Nat.mod_lt _ ha

theorem padOf_add_self_mod (p : Nat) {a : Nat} (ha : 0 < a) : (p + padOf p a) % a = 0 := by
  unfold padOf
  by_cases h : p % a = 0
  · simp [h, Nat.add_mod]
  · have h1 : p % a < a := Nat.mod_lt _ ha
    have h2 : (a - p % a) % a = a - p % a := Nat.mod_eq_of_lt (by omega)
    rw [Nat.add_mod, Nat.mod_mod_of_dvd _ dvd_rfl, h2,
      show p % a + (a - p % a) = a from by omega, Nat.mod_self]

theorem padOf_mod_congr {a : Nat} (hdvd : a ∣ 8) {p q : Nat} (h : p % 8 = q % 8) :
    padOf p a = padOf q a := by
  unfold padOf
  rw [← Nat.mod_mod_of_dvd p hdvd, ← Nat.mod_mod_of_dvd q hdvd, h]

theorem alignment_pos (v : Variant) : 0 < v.alignment := by
  cases v <;> simp [Variant.alignment]

theorem alignment_dvd_8 (v : Variant) : v.alignment ∣ 8 := by
  cases v <;> simp [Variant.alignment] <;> decide

theorem leBytes_length (k n : Nat) : (leBytes k n).length = k := by
  induction k generalizing n with
  | zero => rfl
  | succ k ih => simp [leBytes, ih]

theorem leVal_leBytes (k n : Nat) (h : n < 256 ^ k) : leVal (leBytes k n) = n := by
  induction k generalizing n with
  | zero =>
    have : n = 0 := by
      simpa using Nat.lt_one_iff.mp (by simpa using h)
    simp [this, leBytes, leVal]
  | succ k ih =>
    have hdiv : n / 256 < 256 ^ k := by
      rw [Nat.div_lt_iff_lt_mul (by norm_num)]
      calc n < 256 ^ (k + 1) := h
        _ = 256 ^ k * 256 := by ring
    simp [leBytes, leVal, ih _ hdiv]
    omega

theorem SharedData.head_len (d : SharedData) (n : Nat) : (d.head n).len = n := rfl

theorem SharedData.tail_pos (d : SharedData) (n : Nat) : (d.tail n).pos = d.pos + n := rfl

theorem SharedData.bytes_length (d : SharedData) (h : d.WF) : d.bytes.length = d.len := by
  unfold SharedData.bytes SharedData.WF at *
  rw [List.length_take, List.length_drop]
  omega

theorem SharedData.bytes_tail (d : SharedData) (n : Nat) :
    (d.tail n).bytes = d.bytes.drop n := by
  unfold SharedData.bytes SharedData.tail
  simp only [List.drop_take, List.drop_drop]
  try rw [Nat.add_comm n d.pos]

theorem SharedData.bytes_head (d : SharedData) {n : Nat} (h : n ≤ d.len) :
    (d.head n).bytes = d.bytes.take n := by
  unfold SharedData.bytes SharedData.head
  rw [List.take_take, Nat.min_eq_left h]

theorem SharedData.WF_tail (d : SharedData) (h : d.WF) {n : Nat} (hn : n ≤ d.len) :
    (d.tail n).WF := by
  unfold SharedData.WF SharedData.tail at *
  simp only
  omega

theorem SharedData.WF_head (d : SharedData) (h : d.WF) {n : Nat} (hn : n ≤ d.len) :
    (d.head n).WF := by
  unfold SharedData.WF SharedData.head at *
  simp only
  omega

theorem encBodies_cons (v : Variant) (r : List Variant) (off : Nat) :
    encBodies (v :: r) off =
      List.replicate (padOf off v.alignment) 0 ++ encBody v ++
        encBodies r (off + padOf off v.alignment + (encBody v).length) := by
  rfl

mutual

theorem encode_value_into_eq (v : Variant) (bytes : List Nat) (fmt : EncodingFormat) :
    v.encode_value_into bytes fmt =
      bytes ++ List.replicate (padOf bytes.length v.alignment) 0 ++ encBody v := by
  cases v
  case struct fs =>
    show encodeFieldsInto fs (bytes ++ List.replicate (padOf bytes.length 8) 0) fmt = _
    rw [encodeFieldsInto_eq fs (bytes ++ List.replicate (padOf bytes.length 8) 0) 0 fmt
      (by simp [padOf_add_self_mod bytes.length (by norm_num : (0:Nat) < 8)])]
    simp [Variant.alignment, encBody]
  all_goals rfl

theorem encodeFieldsInto_eq (fs : List Variant) (bytes : List Nat) (off : Nat)
    (fmt : EncodingFormat) (h : bytes.length % 8 = off % 8) :
    encodeFieldsInto fs bytes fmt = bytes ++ encBodies fs off := by
  cases fs with
  | nil => simp [encodeFieldsInto, encBodies]
  | cons v r =>
    show encodeFieldsInto r (v.encode_value_into bytes fmt) fmt = _
    rw [encode_value_into_eq v bytes fmt]
    have hpad : padOf bytes.length v.alignment = padOf off v.alignment :=
      padOf_mod_congr (alignment_dvd_8 v) h
    rw [encodeFieldsInto_eq r
      (bytes ++ List.replicate (padOf bytes.length v.alignment) 0 ++ encBody v)
      (off + padOf off v.alignment + (encBody v).length) fmt
      (by
        simp only [List.length_append, List.length_replicate, hpad]
        omega)]
    rw [encBodies_cons]
    simp [hpad, List.append_assoc]

end

theorem encBody_pos (v : Variant) (hv : v.validb = true) : 1 ≤ (encBody v).length := by
  cases v
  case struct fs =>
    simp only [Variant.validb, Bool.and_eq_true, Bool.not_eq_true'] at hv
    obtain ⟨hne, hvl⟩ := hv
    cases fs with
    | nil => simp [List.isEmpty] at hne
    | cons v0 r =>
      simp only [validList, Bool.and_eq_true] at hvl
      have h0 := encBody_pos v0 hvl.1
      simp only [encBody, encBodies_cons, List.length_append]
      omega
  all_goals (simp [encBody, leBytes_length, Variant.validb]; try omega)

theorem bytes_split_len (d : SharedData) (pre body junk : List Nat) (hw : d.WF)
    (hb : d.bytes = pre ++ body ++ junk) :
    d.len = pre.length + body.length + junk.length := by
  have h := d.bytes_length hw
  rw [hb] at h
  simp at h
  omega

theorem readLE_of_bytes (d : SharedData) {off k val : Nat} (pre junk : List Nat)
    (hb : d.bytes = pre ++ leBytes k val ++ junk) (hoff : pre.length = off)
    (hval : val < 256 ^ k) : readLE d off k = val := by
  unfold readLE
  rw [hb, ← hoff, List.append_assoc, List.drop_left,
    List.take_left' (leBytes_length k val)]
  exact leVal_leBytes k val hval

theorem slice_data_fixed_ok (d : SharedData) (fmt : EncodingFormat) (c : Char)
    (tail2 : List Char) (sz al : Nat) (hc : basicSizeAlign c = some (sz, al))
    (hlen : padOf d.pos al + sz ≤ d.len) :
    variant_type.slice_data d (c :: tail2) fmt = .ok (d.head (padOf d.pos al + sz)) := by
  simp only [variant_type.slice_data, hc]
  rw [if_neg (Nat.not_lt.mpr hlen)]

theorem decodeFixed_ok (d : SharedData) {sz al val : Nat} (pre junk : List Nat)
    (hw : d.WF) (hb : d.bytes = pre ++ leBytes sz val ++ junk)
    (hp : pre.length = padOf d.pos al) (hval : val < 256 ^ sz) :
    decodeFixed d sz al = .ok val := by
  have hlen := bytes_split_len d pre (leBytes sz val) junk hw hb
  rw [leBytes_length] at hlen
  unfold decodeFixed
  rw [if_neg (by omega)]
  rw [readLE_of_bytes d pre junk hb hp hval]

theorem slice_data_strlike_ok (d : SharedData) (fmt : EncodingFormat) (c : Char)
    (tail2 : List Char) (hc : c = 's' ∨ c = 'o') (bs : List Nat)
    (pre junk : List Nat) (hw : d.WF)
    (hb : d.bytes = pre ++ (leBytes 4 bs.length ++ bs ++ [0]) ++ junk)
    (hp : pre.length = padOf d.pos 4) (h32 : bs.length < 2 ^ 32) :
    variant_type.slice_data d (c :: tail2) fmt =
      .ok (d.head (padOf d.pos 4 + 4 + bs.length + 1)) := by
  have hlen := bytes_split_len d pre (leBytes 4 bs.length ++ bs ++ [0]) junk hw hb
  simp only [List.length_append, leBytes_length, List.length_cons, List.length_nil] at hlen
  have hbsa : basicSizeAlign c = none := by
    rcases hc with h | h <;> subst h <;> rfl
  have hread : readLE d (padOf d.pos 4) 4 = bs.length := by
    refine readLE_of_bytes d pre ((bs ++ [0]) ++ junk) ?_ hp (by simpa using h32)
    rw [hb]
    simp [List.append_assoc]
  simp only [variant_type.slice_data, hbsa]
  rw [if_pos hc, if_neg (by omega), hread, if_neg (by omega)]

theorem decodeStrPayload_ok (d : SharedData) (bs : List Nat) (pre junk : List Nat)
    (hw : d.WF) (hb : d.bytes = pre ++ (leBytes 4 bs.length ++ bs ++ [0]) ++ junk)
    (hp : pre.length = padOf d.pos 4) (h32 : bs.length < 2 ^ 32) :
    decodeStrPayload d = .ok bs := by
  have hlen := bytes_split_len d pre (leBytes 4 bs.length ++ bs ++ [0]) junk hw hb
  simp only [List.length_append, leBytes_length, List.length_cons, List.length_nil] at hlen
  have hread : readLE d (padOf d.pos 4) 4 = bs.length := by
    refine readLE_of_bytes d pre ((bs ++ [0]) ++ junk) ?_ hp (by simpa using h32)
    rw [hb]
    simp [List.append_assoc]
  unfold decodeStrPayload
  rw [if_neg (by omega), hread, if_neg (by omega)]
  congr 1
  rw [hb, ← hp]
  rw [show pre ++ (leBytes 4 bs.length ++ bs ++ [0]) ++ junk =
    (pre ++ leBytes 4 bs.length) ++ (bs ++ ([0] ++ junk)) by simp]
  rw [List.drop_left' (by simp [leBytes_length] :
    (pre ++ leBytes 4 bs.length).length = pre.length + 4)]
  exact List.take_left' rfl

theorem slice_data_sig_ok (d : SharedData) (fmt : EncodingFormat)
    (tail2 : List Char) (bs : List Nat) (junk : List Nat) (hw : d.WF)
    (hb : d.bytes = (leBytes 1 bs.length ++ bs ++ [0]) ++ junk)
    (h8 : bs.length < 2 ^ 8) :
    variant_type.slice_data d ('g' :: tail2) fmt =
      .ok (d.head (1 + bs.length + 1)) := by
  have hlen := bytes_split_len d [] (leBytes 1 bs.length ++ bs ++ [0]) junk hw (by simpa using hb)
  simp only [List.length_append, leBytes_length, List.length_cons, List.length_nil] at hlen
  have hread : readLE d 0 1 = bs.length := by
    refine readLE_of_bytes d [] ((bs ++ [0]) ++ junk) ?_ rfl (by simpa using h8)
    rw [hb]
    simp [List.append_assoc]
  have hga : basicSizeAlign 'g' = none := rfl
  simp only [variant_type.slice_data, hga]
  rw [if_neg (by decide : ¬('g' = 's' ∨ 'g' = 'o'))]
  simp only [if_true]
  rw [if_neg (by omega), hread, if_neg (by omega)]

theorem decodeSigPayload_ok (d : SharedData) (bs : List Nat) (junk : List Nat)
    (hw : d.WF) (hb : d.bytes = (leBytes 1 bs.length ++ bs ++ [0]) ++ junk)
    (h8 : bs.length < 2 ^ 8) :
    decodeSigPayload d = .ok bs := by
  have hlen := bytes_split_len d [] (leBytes 1 bs.length ++ bs ++ [0]) junk hw (by simpa using hb)
  simp only [List.length_append, leBytes_length, List.length_cons, List.length_nil] at hlen
  have hread : readLE d 0 1 = bs.length := by
    refine readLE_of_bytes d [] ((bs ++ [0]) ++ junk) ?_ rfl (by simpa using h8)
    rw [hb]
    simp [List.append_assoc]
  unfold decodeSigPayload
  rw [if_neg (by omega), hread, if_neg (by omega)]
  congr 1
  rw [hb]
  rw [show (leBytes 1 bs.length ++ bs ++ [0]) ++ junk =
    leBytes 1 bs.length ++ (bs ++ ([0] ++ junk)) by simp]
  rw [List.drop_left' (leBytes_length 1 bs.length)]
  exact List.take_left' rfl

theorem pow256_1 : (256 : Nat) ^ 1 = 2 ^ 8 := by norm_num
theorem pow256_2 : (256 : Nat) ^ 2 = 2 ^ 16 := by norm_num
theorem pow256_4 : (256 : Nat) ^ 4 = 2 ^ 32 := by norm_num
theorem pow256_8 : (256 : Nat) ^ 8 = 2 ^ 64 := by norm_num

theorem fieldsSignature_cons (v : Variant) (r : List Variant) :
    fieldsSignature (v :: r) = v.value_signature ++ fieldsSignature r := rfl

mutual

theorem variant_codec_ok (v : Variant) (hv : v.validb = true) (fmt : EncodingFormat)
    (d : SharedData) (pre junk : List Nat) (hw : d.WF)
    (hb : d.bytes = pre ++ encBody v ++ junk)
    (hp : pre.length = padOf d.pos v.alignment) :
    variant_type.slice_data d v.value_signature fmt =
        .ok (d.head (padOf d.pos v.alignment + (encBody v).length)) ∧
      Variant.from_data d v.value_signature fmt = .ok v := by
  have hlen := bytes_split_len d pre (encBody v) junk hw hb
  cases v
  case byte val =>
    simp only [Variant.validb, decide_eq_true_eq] at hv
    refine ⟨?_, ?_⟩
    · have := slice_data_fixed_ok d fmt 'y' [] 1 1 rfl
        (by rw [hp] at hlen; simp [encBody, leBytes_length, Variant.alignment] at hlen ⊢; omega)
      simpa [Variant.value_signature, Variant.alignment, encBody, leBytes_length] using this
    · have hdf := decodeFixed_ok d pre junk hw hb
        (by simpa [Variant.alignment] using hp) (by rw [pow256_1]; exact hv)
      simp [Variant.value_signature, Variant.from_data, hdf]
  case boolean b =>
    refine ⟨?_, ?_⟩
    · have := slice_data_fixed_ok d fmt 'b' [] 4 4 rfl
        (by rw [hp] at hlen; simp [encBody, leBytes_length, Variant.alignment] at hlen ⊢; omega)
      simpa [Variant.value_signature, Variant.alignment, encBody, leBytes_length] using this
    · have hdf := decodeFixed_ok d pre junk hw hb
        (by simpa [Variant.alignment] using hp)
        (by cases b <;> norm_num)
      cases b <;> simp [Variant.value_signature, Variant.from_data, hdf]
  case int16 val =>
    simp only [Variant.validb, decide_eq_true_eq] at hv
    refine ⟨?_, ?_⟩
    · have := slice_data_fixed_ok d fmt 'n' [] 2 2 rfl
        (by rw [hp] at hlen; simp [encBody, leBytes_length, Variant.alignment] at hlen ⊢; omega)
      simpa [Variant.value_signature, Variant.alignment, encBody, leBytes_length] using this
    · have hdf := decodeFixed_ok d pre junk hw hb
        (by simpa [Variant.alignment] using hp) (by rw [pow256_2]; exact hv)
      simp [Variant.value_signature, Variant.from_data, hdf]
  case uint16 val =>
    simp only [Variant.validb, decide_eq_true_eq] at hv
    refine ⟨?_, ?_⟩
    · have := slice_data_fixed_ok d fmt 'q' [] 2 2 rfl
        (by rw [hp] at hlen; simp [encBody, leBytes_length, Variant.alignment] at hlen ⊢; omega)
      simpa [Variant.value_signature, Variant.alignment, encBody, leBytes_length] using this
    · have hdf := decodeFixed_ok d pre junk hw hb
        (by simpa [Variant.alignment] using hp) (by rw [pow256_2]; exact hv)
      simp [Variant.value_signature, Variant.from_data, hdf]
  case int32 val =>
    simp only [Variant.validb, decide_eq_true_eq] at hv
    refine ⟨?_, ?_⟩
    · have := slice_data_fixed_ok d fmt 'i' [] 4 4 rfl
        (by rw [hp] at hlen; simp [encBody, leBytes_length, Variant.alignment] at hlen ⊢; omega)
      simpa [Variant.value_signature, Variant.alignment, encBody, leBytes_length] using this
    · have hdf := decodeFixed_ok d pre junk hw hb
        (by simpa [Variant.alignment] using hp) (by rw [pow256_4]; exact hv)
      simp [Variant.value_signature, Variant.from_data, hdf]
  case uint32 val =>
    simp only [Variant.validb, decide_eq_true_eq] at hv
    refine ⟨?_, ?_⟩
    · have := slice_data_fixed_ok d fmt 'u' [] 4 4 rfl
        (by rw [hp] at hlen; simp [encBody, leBytes_length, Variant.alignment] at hlen ⊢; omega)
      simpa [Variant.value_signature, Variant.alignment, encBody, leBytes_length] using this
    · have hdf := decodeFixed_ok d pre junk hw hb
        (by simpa [Variant.alignment] using hp) (by rw [pow256_4]; exact hv)
      simp [Variant.value_signature, Variant.from_data, hdf]
  case int64 val =>
    simp only [Variant.validb, decide_eq_true_eq] at hv
    refine ⟨?_, ?_⟩
    · have := slice_data_fixed_ok d fmt 'x' [] 8 8 rfl
        (by rw [hp] at hlen; simp [encBody, leBytes_length, Variant.alignment] at hlen ⊢; omega)
      simpa [Variant.value_signature, Variant.alignment, encBody, leBytes_length] using this
    · have hdf := decodeFixed_ok d pre junk hw hb
        (by simpa [Variant.alignment] using hp) (by rw [pow256_8]; exact hv)
      simp [Variant.value_signature, Variant.from_data, hdf]
  case uint64 val =>
    simp only [Variant.validb, decide_eq_true_eq] at hv
    refine ⟨?_, ?_⟩
    · have := slice_data_fixed_ok d fmt 't' [] 8 8 rfl
        (by rw [hp] at hlen; simp [encBody, leBytes_length, Variant.alignment] at hlen ⊢; omega)
      simpa [Variant.value_signature, Variant.alignment, encBody, leBytes_length] using this
    · have hdf := decodeFixed_ok d pre junk hw hb
        (by simpa [Variant.alignment] using hp) (by rw [pow256_8]; exact hv)
      simp [Variant.value_signature, Variant.from_data, hdf]
  case double bits =>
    simp only [Variant.validb, decide_eq_true_eq] at hv
    refine ⟨?_, ?_⟩
    · have := slice_data_fixed_ok d fmt 'd' [] 8 8 rfl
        (by rw [hp] at hlen; simp [encBody, leBytes_length, Variant.alignment] at hlen ⊢; omega)
      simpa [Variant.value_signature, Variant.alignment, encBody, leBytes_length] using this
    · have hdf := decodeFixed_ok d pre junk hw hb
        (by simpa [Variant.alignment] using hp) (by rw [pow256_8]; exact hv)
      simp [Variant.value_signature, Variant.from_data, hdf]
  case unixFd val =>
    simp only [Variant.validb, decide_eq_true_eq] at hv
    refine ⟨?_, ?_⟩
    · have := slice_data_fixed_ok d fmt 'h' [] 4 4 rfl
        (by rw [hp] at hlen; simp [encBody, leBytes_length, Variant.alignment] at hlen ⊢; omega)
      simpa [Variant.value_signature, Variant.alignment, encBody, leBytes_length] using this
    · have hdf := decodeFixed_ok d pre junk hw hb
        (by simpa [Variant.alignment] using hp) (by rw [pow256_4]; exact hv)
      simp [Variant.value_signature, Variant.from_data, hdf]
  case string bs =>
    simp only [Variant.validb, Bool.and_eq_true, decide_eq_true_eq] at hv
    refine ⟨?_, ?_⟩
    · have hsl := slice_data_strlike_ok d fmt 's' [] (Or.inl rfl) bs pre junk hw hb
        (by simpa [Variant.alignment] using hp) hv.2
      have harith : padOf d.pos (Variant.string bs).alignment +
          (encBody (Variant.string bs)).length = padOf d.pos 4 + 4 + bs.length + 1 := by
        simp [Variant.alignment, encBody, leBytes_length]
        omega
      rw [show Variant.value_signature (Variant.string bs) = ['s'] from rfl, harith]
      exact hsl
    · have hds := decodeStrPayload_ok d bs pre junk hw hb
        (by simpa [Variant.alignment] using hp) hv.2
      simp [Variant.value_signature, Variant.from_data, hds]
  case objectPath bs =>
    simp only [Variant.validb, Bool.and_eq_true, decide_eq_true_eq] at hv
    refine ⟨?_, ?_⟩
    · have hsl := slice_data_strlike_ok d fmt 'o' [] (Or.inr rfl) bs pre junk hw hb
        (by simpa [Variant.alignment] using hp) hv.2
      have harith : padOf d.pos (Variant.objectPath bs).alignment +
          (encBody (Variant.objectPath bs)).length = padOf d.pos 4 + 4 + bs.length + 1 := by
        simp [Variant.alignment, encBody, leBytes_length]
        omega
      rw [show Variant.value_signature (Variant.objectPath bs) = ['o'] from rfl, harith]
      exact hsl
    · have hds := decodeStrPayload_ok d bs pre junk hw hb
        (by simpa [Variant.alignment] using hp) hv.2
      simp [Variant.value_signature, Variant.from_data, hds]
  case signature bs =>
    simp only [Variant.validb, Bool.and_eq_true, decide_eq_true_eq] at hv
    have hpre : pre = [] := by
      have hl0 : pre.length = 0 := by
        rw [hp]
        simp [Variant.alignment, padOf, Nat.mod_one]
      exact List.length_eq_zero.mp hl0
    subst hpre
    have hbg : d.bytes = (leBytes 1 bs.length ++ bs ++ [0]) ++ junk := by
      rw [hb]
      simp [encBody]
    refine ⟨?_, ?_⟩
    · have hsl := slice_data_sig_ok d fmt [] bs junk hw hbg hv.2
      have harith : padOf d.pos (Variant.signature bs).alignment +
          (encBody (Variant.signature bs)).length = 1 + bs.length + 1 := by
        simp [Variant.alignment, encBody, leBytes_length, padOf, Nat.mod_one]
        omega
      rw [show Variant.value_signature (Variant.signature bs) = ['g'] from rfl, harith]
      exact hsl
    · have hds := decodeSigPayload_ok d bs junk hw hbg hv.2
      simp [Variant.value_signature, Variant.from_data, hds]
  case struct fs =>
    have hso := struct_codec_ok fs hv fmt d pre junk hw (by simpa [encBody] using hb)
      (by simpa [Variant.alignment] using hp)
    have hdisp_slice : variant_type.slice_data d (Variant.value_signature (.struct fs)) fmt =
        Structure.slice_data d (Structure.signature fs) fmt := by
      rw [show Variant.value_signature (.struct fs) =
        '(' :: (fieldsSignature fs ++ [')']) from by
          simp [Variant.value_signature]]
      simp only [variant_type.slice_data]
      rfl
    have hdisp_decode : Variant.from_data d (Variant.value_signature (.struct fs)) fmt =
        match Structure.decode d (Structure.signature fs) fmt with
        | .error e => .error e
        | .ok fields => .ok (.struct fields) := by
      rw [show Variant.value_signature (.struct fs) =
        '(' :: (fieldsSignature fs ++ [')']) from by
          simp [Variant.value_signature]]
      simp only [Variant.from_data]
      rfl
    refine ⟨?_, ?_⟩
    · rw [hdisp_slice, hso.1]
      simp [Variant.alignment, encBody]
    · rw [hdisp_decode, hso.2]
termination_by (sizeOf v, 2)

theorem struct_codec_ok (fs : List Variant) (hv : Variant.validb (.struct fs) = true)
    (fmt : EncodingFormat) (d : SharedData) (pre junk : List Nat) (hw : d.WF)
    (hb : d.bytes = pre ++ encBodies fs 0 ++ junk)
    (hp : pre.length = padOf d.pos 8) :
    Structure.slice_data d (Structure.signature fs) fmt =
        .ok (d.head (padOf d.pos 8 + (encBodies fs 0).length)) ∧
      Structure.decode d (Structure.signature fs) fmt = .ok fs := by
  have hlen := bytes_split_len d pre (encBodies fs 0) junk hw hb
  have hvs := hv
  simp only [Variant.validb, Bool.and_eq_true, Bool.not_eq_true'] at hvs
  obtain ⟨hne, hvl⟩ := hvs
  have hfs_ne : fs ≠ [] := by
    cases fs
    · simp [List.isEmpty] at hne
    · simp
  have hbody_pos : 1 ≤ (encBodies fs 0).length := by
    have := encBody_pos (.struct fs) hv
    simpa [encBody] using this
  have hsig_len : 3 ≤ (Structure.signature fs).length := by
    cases fs with
    | nil => exact absurd rfl hfs_ne
    | cons v0 r =>
      have := value_signature_ne_nil v0
      simp [Structure.signature, fieldsSignature_cons]
      omega
  have hinner : ((Structure.signature fs).drop 1).dropLast = fieldsSignature fs := by
    simp only [Structure.signature, List.drop_succ_cons, List.drop_zero]
    exact List.dropLast_concat ..
  have hguard : ¬(d.len < padOf d.pos 8 ∨ (Structure.signature fs).length < 3) := by
    push_neg
    constructor
    · omega
    · omega
  have hloop := fields_codec_ok fs hvl fmt d (padOf d.pos 8) 0 junk hw
    (by rw [hb, ← hp, List.append_assoc]; exact List.drop_left pre _)
    (by rw [Nat.zero_mod]; exact padOf_add_self_mod d.pos (by norm_num))
    (by omega)
  constructor
  · rw [Structure.slice_data, dif_neg hguard, ensure_correct_signature_ok fs, hinner]
    have hne0 : padOf d.pos 8 + (encBodies fs 0).length ≠ 0 := by omega
    simp [hloop.1, hne0]
  · rw [Structure.decode, dif_neg hguard, ensure_correct_signature_ok fs, hinner]
    have hloop2 := fields_codec_ok fs hvl fmt (d.tail (padOf d.pos 8)) 0 0 junk
      (d.WF_tail hw (by omega))
      (by
        rw [SharedData.bytes_tail, List.drop_zero, hb, ← hp, List.append_assoc]
        exact List.drop_left pre _)
      (by
        rw [SharedData.tail_pos, Nat.add_zero, Nat.zero_mod]
        exact padOf_add_self_mod d.pos (by norm_num))
      (by omega)
    have hne0 : (encBodies fs 0).length ≠ 0 := by omega
    simp [hloop2.2 [], hne0]
termination_by (sizeOf fs, 1)

theorem fields_codec_ok (fs : List Variant) (hv : validList fs = true)
    (fmt : EncodingFormat) (d : SharedData) (e off : Nat) (junk : List Nat)
    (hw : d.WF) (h1 : d.bytes.drop e = encBodies fs off ++ junk)
    (h2 : (d.pos + e) % 8 = off % 8) (h3 : e ≤ d.len) :
    structSliceLoop d (fieldsSignature fs) e fmt =
        .ok (e + (encBodies fs off).length) ∧
      ∀ acc, structDecodeLoop d (fieldsSignature fs) e acc fmt =
        .ok (e + (encBodies fs off).length, acc ++ fs) := by
  cases fs with
  | nil =>
    constructor
    · rw [show fieldsSignature [] = [] from rfl, structSliceLoop]
      simp [encBodies]
    · intro acc
      rw [show fieldsSignature [] = [] from rfl, structDecodeLoop]
      simp [encBodies]
  | cons v r =>
    simp only [validList, Bool.and_eq_true] at hv
    have hdlen := d.bytes_length hw
    have hdroplen : (d.bytes.drop e).length = d.len - e := by
      simp [hdlen]
    have hblen : d.len - e = (encBodies (v :: r) off).length + junk.length := by
      rw [← hdroplen, h1]
      simp
    have hpadeq : padOf (d.pos + e) v.alignment = padOf off v.alignment :=
      padOf_mod_congr (alignment_dvd_8 v) h2
    obtain ⟨L, hL⟩ : ∃ n, n = padOf off v.alignment + (encBody v).length := ⟨_, rfl⟩
    have hbody_cons : encBodies (v :: r) off =
        (List.replicate (padOf off v.alignment) 0 ++ encBody v) ++
          encBodies r (off + L) := by
      rw [encBodies_cons, hL]
      simp [List.append_assoc, Nat.add_assoc]
    have hcons_len : (encBodies (v :: r) off).length =
        L + (encBodies r (off + L)).length := by
      rw [hbody_cons]
      simp only [List.length_append, List.length_replicate]
      omega
    have hwt : (d.tail e).WF := d.WF_tail hw h3
    have htb : (d.tail e).bytes =
        List.replicate (padOf off v.alignment) 0 ++ encBody v ++
          (encBodies r (off + L) ++ junk) := by
      rw [SharedData.bytes_tail, h1, hbody_cons]
      simp [List.append_assoc]
    have hchild := variant_codec_ok v hv.1 fmt (d.tail e)
      (List.replicate (padOf off v.alignment) 0) (encBodies r (off + L) ++ junk) hwt htb
      (by simp [SharedData.tail_pos, hpadeq])
    have hslice_child : variant_type.slice_data (d.tail e) v.value_signature fmt =
        .ok ((d.tail e).head L) := by
      rw [hchild.1]
      congr 1
      rw [hL, show (d.tail e).pos = d.pos + e from rfl, hpadeq]
    have hLlen : L ≤ d.len - e := by
      have hx := hblen
      rw [hcons_len] at hx
      omega
    have h1' : d.bytes.drop (e + L) = encBodies r (off + L) ++ junk := by
      have hdd : d.bytes.drop (e + L) = (d.bytes.drop e).drop L := by
        rw [List.drop_drop, Nat.add_comm]
      rw [hdd, h1, hbody_cons, List.append_assoc]
      refine List.drop_left' ?_
      simp only [List.length_append, List.length_replicate]
      omega
    have h2' : (d.pos + (e + L)) % 8 = (off + L) % 8 := by
      rw [← Nat.add_assoc, Nat.add_mod (d.pos + e) L, Nat.add_mod off L, h2]
    have h3' : e + L ≤ d.len := by omega
    have hrest := fields_codec_ok r hv.2 fmt d (e + L) (off + L) junk hw h1' h2' h3'
    have hhead_wf : ((d.tail e).head L).WF :=
      SharedData.WF_head _ hwt (show L ≤ d.len - e from hLlen)
    have hhead_bytes : ((d.tail e).head L).bytes =
        List.replicate (padOf off v.alignment) 0 ++ encBody v := by
      rw [SharedData.bytes_head _ (show L ≤ d.len - e from hLlen), htb]
      refine List.take_left' ?_
      simp only [List.length_append, List.length_replicate]
      omega
    have hchild2 := variant_codec_ok v hv.1 fmt ((d.tail e).head L)
      (List.replicate (padOf off v.alignment) 0) [] hhead_wf
      (by simp [hhead_bytes])
      (by
        show (List.replicate (padOf off v.alignment) 0).length =
          padOf ((d.tail e).head L).pos v.alignment
        rw [show ((d.tail e).head L).pos = d.pos + e from rfl, hpadeq]
        simp)
    constructor
    · rw [fieldsSignature_cons]
      obtain ⟨c0, rest0, hvsig⟩ : ∃ c0 rest0,
          v.value_signature ++ fieldsSignature r = c0 :: rest0 := by
        cases hx : v.value_signature ++ fieldsSignature r with
        | nil =>
          have hlen1 := value_signature_ne_nil v
          rw [List.append_eq_nil] at hx
          rw [hx.1] at hlen1
          simp at hlen1
        | cons c0 rest0 => exact ⟨c0, rest0, rfl⟩
      rw [hvsig, structSliceLoop]
      have hss : variant_type.slice_signature (c0 :: rest0) = .ok v.value_signature := by
        rw [← hvsig]
        exact slice_signature_complete v (fieldsSignature r)
      split
      · next e0 he0 => rw [hss] at he0; cases he0
      · next cs hcs =>
        rw [hss] at hcs
        cases hcs
        simp only [hslice_child]
        rw [show ((d.tail e).head L).len = L from rfl]
        rw [if_neg (by omega)]
        rw [show (c0 :: rest0).drop v.value_signature.length = fieldsSignature r from by
          rw [← hvsig]; exact List.drop_left ..]
        rw [hrest.1]
        rw [hcons_len, Nat.add_assoc]
    · intro acc
      rw [fieldsSignature_cons]
      obtain ⟨c0, rest0, hvsig⟩ : ∃ c0 rest0,
          v.value_signature ++ fieldsSignature r = c0 :: rest0 := by
        cases hx : v.value_signature ++ fieldsSignature r with
        | nil =>
          have hlen1 := value_signature_ne_nil v
          rw [List.append_eq_nil] at hx
          rw [hx.1] at hlen1
          simp at hlen1
        | cons c0 rest0 => exact ⟨c0, rest0, rfl⟩
      rw [hvsig, structDecodeLoop]
      have hss : variant_type.slice_signature (c0 :: rest0) = .ok v.value_signature := by
        rw [← hvsig]
        exact slice_signature_complete v (fieldsSignature r)
      split
      · next e0 he0 => rw [hss] at he0; cases he0
      · next cs hcs =>
        rw [hss] at hcs
        cases hcs
        simp only [hslice_child]
        rw [show ((d.tail e).head L).len = L from rfl]
        rw [if_neg (by omega)]
        simp only [hchild2.2]
        rw [show (c0 :: rest0).drop v.value_signature.length = fieldsSignature r from by
          rw [← hvsig]; exact List.drop_left ..]
        rw [hrest.2 (acc ++ [v])]
        rw [hcons_len, Nat.add_assoc]
        simp
termination_by (sizeOf fs, 0)

end

theorem encode_into_empty_buf (fields : List Variant) (fmt : EncodingFormat) :
    Structure.encode_into fields [] fmt = encBodies fields 0 := by
  unfold Structure.encode_into
  simp only [List.length_nil]
  rw [encodeFieldsInto_eq fields ([] ++ List.replicate (padOf 0 8) 0) 0 fmt
    (by simp [padOf])]
  simp [padOf]

theorem struct_validb_of (fields : List Variant) (h1 : validList fields = true)
    (h2 : fields ≠ []) : Variant.validb (.struct fields) = true := by
  cases fields with
  | nil => exact absurd rfl h2
  | cons a b => simp [Variant.validb, List.isEmpty, h1]

/-- Claim C1 (amended): for every non-empty Structure value all of whose
(transitively nested) structures are themselves non-empty, decoding the
bytes produced by `Structure::encode_into` with `Structure::signature` via
`Structure::decode` succeeds and returns exactly the original fields. -/
theorem structure_roundtrip_nonempty (fields : List Variant) (fmt : EncodingFormat)
    (h1 : validList fields = true) (h2 : fields ≠ []) :
    Structure.decode
        ⟨Structure.encode_into fields [] fmt, 0,
          (Structure.encode_into fields [] fmt).length⟩
        (Structure.signature fields) fmt = .ok fields := by
  rw [encode_into_empty_buf fields fmt]
  have hv := struct_validb_of fields h1 h2
  have hok := struct_codec_ok fields hv fmt
    ⟨encBodies fields 0, 0, (encBodies fields 0).length⟩ [] []
    (by simp [SharedData.WF])
    (by simp [SharedData.bytes])
    (by simp [padOf])
  exact hok.2

/-- Witness for C1 at the one-field structure `(y)` holding the byte 1. -/
theorem structure_roundtrip_nonempty_witness :
    validList [Variant.byte 1] = true ∧ ([Variant.byte 1] : List Variant) ≠ [] ∧
      Structure.decode
        ⟨Structure.encode_into [Variant.byte 1] [] .dbus, 0,
          (Structure.encode_into [Variant.byte 1] [] .dbus).length⟩
        (Structure.signature [Variant.byte 1]) .dbus = .ok [Variant.byte 1] :=
  ⟨by decide, by simp,
    structure_roundtrip_nonempty [Variant.byte 1] .dbus (by decide) (by simp)⟩

/-- Claim C2 (amended): for every non-empty Structure value (nested
structures non-empty), `Structure::slice_data` on a SharedData wrapping
exactly the output of the encoder at position 0 succeeds and the returned
slice's length equals the length of the encoding. -/
theorem structure_slice_length_nonempty (fields : List Variant) (fmt : EncodingFormat)
    (h1 : validList fields = true) (h2 : fields ≠ []) :
    Structure.slice_data
        ⟨Structure.encode_into fields [] fmt, 0,
          (Structure.encode_into fields [] fmt).length⟩
        (Structure.signature fields) fmt =
      .ok ⟨Structure.encode_into fields [] fmt, 0,
        (Structure.encode_into fields [] fmt).length⟩ ∧
      (⟨Structure.encode_into fields [] fmt, 0,
        (Structure.encode_into fields [] fmt).length⟩ : SharedData).len =
        (Structure.encode_into fields [] fmt).length := by
  rw [encode_into_empty_buf fields fmt]
  have hv := struct_validb_of fields h1 h2
  have hok := struct_codec_ok fields hv fmt
    ⟨encBodies fields 0, 0, (encBodies fields 0).length⟩ [] []
    (by simp [SharedData.WF])
    (by simp [SharedData.bytes])
    (by simp [padOf])
  refine ⟨?_, rfl⟩
  rw [hok.1]
  simp [SharedData.head, padOf]

/-- Witness for C2 at the one-field structure `(u)` holding the uint32 7. -/
theorem structure_slice_length_nonempty_witness :
    validList [Variant.uint32 7] = true ∧ ([Variant.uint32 7] : List Variant) ≠ [] ∧
      Structure.slice_data
        ⟨Structure.encode_into [Variant.uint32 7] [] .dbus, 0,
          (Structure.encode_into [Variant.uint32 7] [] .dbus).length⟩
        (Structure.signature [Variant.uint32 7]) .dbus =
      .ok ⟨Structure.encode_into [Variant.uint32 7] [] .dbus, 0,
        (Structure.encode_into [Variant.uint32 7] [] .dbus).length⟩ :=
  ⟨by decide, by simp,
    (structure_slice_length_nonempty [Variant.uint32 7] .dbus (by decide) (by simp)).1⟩

theorem structSliceLoop_bounds_aux : ∀ (n : Nat) (inner : List Char), inner.length ≤ n →
    ∀ (d : SharedData) (e : Nat) (fmt : EncodingFormat) (e2 : Nat),
      structSliceLoop d inner e fmt = .ok e2 → e ≤ e2 ∧ (e2 ≤ d.len ∨ e2 = e) := by
  intro n
  induction n with
  | zero =>
    intro inner hn d e fmt e2 h
    have hnil : inner = [] := List.length_eq_zero.mp (by omega)
    subst hnil
    rw [structSliceLoop] at h
    cases h
    exact ⟨le_rfl, Or.inr rfl⟩
  | succ n ih =>
    intro inner hn d e fmt e2 h
    cases inner with
    | nil =>
      rw [structSliceLoop] at h
      cases h
      exact ⟨le_rfl, Or.inr rfl⟩
    | cons c0 rest0 =>
      rw [structSliceLoop] at h
      split at h
      · cases h
      · next cs hcs =>
        split at h
        · cases h
        · next slice hslice =>
          split at h
          · cases h
          · next hlt =>
            have hclen := slice_signature_length hcs
            simp only [List.length_cons] at hclen hn
            have hrec := ih ((c0 :: rest0).drop cs.length)
              (by simp only [List.length_drop, List.length_cons]; omega)
              d (e + slice.len) fmt e2 h
            refine ⟨by omega, ?_⟩
            rcases hrec.2 with hc | hc
            · exact Or.inl hc
            · exact Or.inl (by omega)

theorem structSliceLoop_bounds (d : SharedData) (inner : List Char) (e : Nat)
    (fmt : EncodingFormat) (e2 : Nat)
    (h : structSliceLoop d inner e fmt = .ok e2) :
    e ≤ e2 ∧ (e2 ≤ d.len ∨ e2 = e) :=
  structSliceLoop_bounds_aux inner.length inner le_rfl d e fmt e2 h

theorem structDecodeLoop_bounds_aux : ∀ (n : Nat) (inner : List Char), inner.length ≤ n →
    ∀ (d : SharedData) (e : Nat) (acc : List Variant) (fmt : EncodingFormat)
      (e2 : Nat) (out : List Variant),
      structDecodeLoop d inner e acc fmt = .ok (e2, out) →
        e ≤ e2 ∧ (e2 ≤ d.len ∨ e2 = e) := by
  intro n
  induction n with
  | zero =>
    intro inner hn d e acc fmt e2 out h
    have hnil : inner = [] := List.length_eq_zero.mp (by omega)
    subst hnil
    rw [structDecodeLoop] at h
    cases h
    exact ⟨le_rfl, Or.inr rfl⟩
  | succ n ih =>
    intro inner hn d e acc fmt e2 out h
    cases inner with
    | nil =>
      rw [structDecodeLoop] at h
      cases h
      exact ⟨le_rfl, Or.inr rfl⟩
    | cons c0 rest0 =>
      rw [structDecodeLoop] at h
      split at h
      · cases h
      · next cs hcs =>
        split at h
        · cases h
        · next slice hslice =>
          split at h
          · cases h
          · next hlt =>
            split at h
            · cases h
            · next v hv =>
              have hclen := slice_signature_length hcs
              simp only [List.length_cons] at hclen hn
              have hrec := ih ((c0 :: rest0).drop cs.length)
                (by simp only [List.length_drop, List.length_cons]; omega)
                d (e + slice.len) (acc ++ [v]) fmt e2 out h
              refine ⟨by omega, ?_⟩
              rcases hrec.2 with hc | hc
              · exact Or.inl hc
              · exact Or.inl (by omega)

theorem structDecodeLoop_bounds (d : SharedData) (inner : List Char) (e : Nat)
    (acc : List Variant) (fmt : EncodingFormat) (e2 : Nat) (out : List Variant)
    (h : structDecodeLoop d inner e acc fmt = .ok (e2, out)) :
    e ≤ e2 ∧ (e2 ≤ d.len ∨ e2 = e) :=
  structDecodeLoop_bounds_aux inner.length inner le_rfl d e acc fmt e2 out h

/-- Claim C3 (amended): whenever `Structure::slice_data` succeeds, the
returned SharedData is a sub-view of `data` that starts at
`data.position()` itself — the alignment padding bytes are part of the
returned view, whose length is the padding plus the serialized length and
never exceeds the available window. -/
theorem slice_data_subview (data : SharedData) (sig : List Char)
    (fmt : EncodingFormat) (r : SharedData)
    (h : Structure.slice_data data sig fmt = .ok r) :
    ∃ n, r = data.head n ∧ padOf data.position 8 ≤ n ∧ n ≤ data.len ∧
      r.buffer = data.buffer ∧ r.pos = data.position := by
  rw [Structure.slice_data] at h
  split at h
  · cases h
  · next hguard =>
    push_neg at hguard
    split at h
    · cases h
    · split at h
      · cases h
      · next extracted hloop =>
        split at h
        · cases h
        · cases h
          have hb := structSliceLoop_bounds data ((sig.drop 1).dropLast)
            (padOf data.pos 8) fmt extracted hloop
          refine ⟨extracted, rfl, hb.1, ?_, rfl, rfl⟩
          rcases hb.2 with hc | hc
          · exact hc
          · omega

theorem slice_pos4_eval :
    Structure.slice_data ⟨[0, 0, 0, 0, 0, 0, 0, 0, 42], 4, 5⟩ ['(', 'y', ')'] .dbus =
      .ok ⟨[0, 0, 0, 0, 0, 0, 0, 0, 42], 4, 5⟩ := by
  simp [Structure.slice_data, structSliceLoop, variant_type.slice_data,
    variant_type.slice_signature, Structure.ensure_correct_signature, ecsLoop,
    basicSizeAlign, basicSignatureChar, padOf, SharedData.tail, SharedData.head,
    scanClose]

/-- Counterexample to claim C3 as stated: at position 4 the alignment
padding is 4, and the view returned by `Structure::slice_data` starts at
position 4 — `data.position()` itself, not `data.position() + padding = 8`
— and has length 5 (padding plus payload), not the serialized length 1:
the padding bytes are part of the returned view. -/
theorem slice_data_padding_included :
    Structure.slice_data ⟨[0, 0, 0, 0, 0, 0, 0, 0, 42], 4, 5⟩ ['(', 'y', ')'] .dbus =
        .ok ⟨[0, 0, 0, 0, 0, 0, 0, 0, 42], 4, 5⟩ ∧
      (⟨[0, 0, 0, 0, 0, 0, 0, 0, 42], 4, 5⟩ : SharedData).position +
          padOf (⟨[0, 0, 0, 0, 0, 0, 0, 0, 42], 4, 5⟩ : SharedData).position 8 = 8 ∧
      (⟨[0, 0, 0, 0, 0, 0, 0, 0, 42], 4, 5⟩ : SharedData).pos = 4 ∧
      (⟨[0, 0, 0, 0, 0, 0, 0, 0, 42], 4, 5⟩ : SharedData).len = 5 ∧
      (4 : Nat) ≠ 8 ∧ (5 : Nat) ≠ 1 :=
  ⟨slice_pos4_eval, by decide, rfl, rfl, by decide, by decide⟩

/-- Witness for C3 at the same concrete input. -/
theorem slice_data_subview_witness :
    ∃ n, (⟨[0, 0, 0, 0, 0, 0, 0, 0, 42], 4, 5⟩ : SharedData) =
        SharedData.head ⟨[0, 0, 0, 0, 0, 0, 0, 0, 42], 4, 5⟩ n ∧
      padOf (SharedData.position ⟨[0, 0, 0, 0, 0, 0, 0, 0, 42], 4, 5⟩) 8 ≤ n ∧
      n ≤ (⟨[0, 0, 0, 0, 0, 0, 0, 0, 42], 4, 5⟩ : SharedData).len ∧
      (⟨[0, 0, 0, 0, 0, 0, 0, 0, 42], 4, 5⟩ : SharedData).buffer =
        (⟨[0, 0, 0, 0, 0, 0, 0, 0, 42], 4, 5⟩ : SharedData).buffer ∧
      (⟨[0, 0, 0, 0, 0, 0, 0, 0, 42], 4, 5⟩ : SharedData).pos =
        SharedData.position ⟨[0, 0, 0, 0, 0, 0, 0, 0, 42], 4, 5⟩ :=
  slice_data_subview ⟨[0, 0, 0, 0, 0, 0, 0, 0, 42], 4, 5⟩ ['(', 'y', ')'] .dbus
    ⟨[0, 0, 0, 0, 0, 0, 0, 0, 42], 4, 5⟩ slice_pos4_eval

theorem scanClose_error {copen cclose : Char} :
    ∀ {s : List Char} {dep : Nat} {e : VariantError},
      scanClose copen cclose s dep = .error e → e = .insufficientData := by
  intro s
  induction s with
  | nil => intro dep e h; rw [scanClose] at h; cases h; rfl
  | cons c r ih =>
    intro dep e h
    rw [scanClose] at h
    split at h
    · split at h
      · cases h
      · split at h
        · cases h
        · next heq => cases h; exact ih heq
    · split at h
      · split at h
        · cases h
        · next heq => cases h; exact ih heq
      · split at h
        · cases h
        · next heq => cases h; exact ih heq

theorem slice_signature_error :
    ∀ {s : List Char} {e : VariantError}, variant_type.slice_signature s = .error e →
      e = .insufficientData ∨ e = .incorrectType := by
  intro s
  induction s with
  | nil => intro e h; rw [variant_type.slice_signature] at h; cases h; exact Or.inl rfl
  | cons c r ih =>
    intro e h
    rw [variant_type.slice_signature] at h
    split at h
    · cases h
    · split at h
      · split at h
        · cases h
        · next heq => cases h; exact ih heq
      · split at h
        · split at h
          · cases h
          · next heq => cases h; exact Or.inl (scanClose_error heq)
        · split at h
          · split at h
            · cases h
            · next heq => cases h; exact Or.inl (scanClose_error heq)
          · cases h; exact Or.inr rfl

theorem ecsLoop_error_aux : ∀ (n : Nat) (rem : List Char), rem.length ≤ n →
    ∀ {e : VariantError}, ecsLoop rem = .error e →
      e = .insufficientData ∨ e = .incorrectType := by
  intro n
  induction n with
  | zero =>
    intro rem hn e h
    have hnil : rem = [] := List.length_eq_zero.mp (by omega)
    subst hnil
    rw [ecsLoop] at h
    simp at h
  | succ n ih =>
    intro rem hn e h
    rw [ecsLoop] at h
    split at h
    · cases h
    · split at h
      · next heq => cases h; exact slice_signature_error heq
      · next cs heq =>
        have hcs := slice_signature_length heq
        exact ih (rem.drop cs.length) (by simp only [List.length_drop]; omega) h

theorem ensure_error {sig : List Char} {e : VariantError}
    (h : Structure.ensure_correct_signature sig = .error e) :
    e = .insufficientData ∨ e = .incorrectType := by
  rw [Structure.ensure_correct_signature] at h
  split at h
  · cases h; exact Or.inr rfl
  · exact ecsLoop_error_aux (sig.drop 1).length (sig.drop 1) le_rfl h

theorem basicSizeAlign_pos {c : Char} {sz al : Nat}
    (h : basicSizeAlign c = some (sz, al)) : 1 ≤ sz := by
  rw [basicSizeAlign] at h
  split_ifs at h <;> (cases h; omega)

theorem struct_slice_pos {d : SharedData} {sig : List Char} {fmt : EncodingFormat}
    {r : SharedData} (h : Structure.slice_data d sig fmt = .ok r) : 1 ≤ r.len := by
  rw [Structure.slice_data] at h
  split at h
  · cases h
  · split at h
    · cases h
    · split at h
      · cases h
      · next extracted hloop =>
        split at h
        · cases h
        · next hne =>
          cases h
          simp [SharedData.head_len]
          omega

theorem vt_slice_pos {d : SharedData} {sig : List Char} {fmt : EncodingFormat}
    {r : SharedData} (h : variant_type.slice_data d sig fmt = .ok r) : 1 ≤ r.len := by
  cases sig with
  | nil => rw [variant_type.slice_data] at h; cases h
  | cons c rest =>
    rw [variant_type.slice_data] at h
    dsimp only at h
    split at h
    · next sz al hsa =>
      split at h
      · cases h
      · cases h
        have := basicSizeAlign_pos hsa
        simp [SharedData.head_len]
        omega
    · split at h
      · split at h
        · cases h
        · split at h
          · cases h
          · cases h
            simp [SharedData.head_len]
      · split at h
        · split at h
          · cases h
          · split at h
            · cases h
            · cases h
              simp [SharedData.head_len]
        · split at h
          · exact struct_slice_pos h
          · cases h

theorem structSliceLoop_pos {d : SharedData} {inner : List Char} {e : Nat}
    {fmt : EncodingFormat} {e2 : Nat} (hne : inner ≠ [])
    (h : structSliceLoop d inner e fmt = .ok e2) : e + 1 ≤ e2 := by
  cases inner with
  | nil => exact absurd rfl hne
  | cons c0 rest0 =>
    rw [structSliceLoop] at h
    split at h
    · cases h
    · split at h
      · cases h
      · next slice hslice =>
        split at h
        · cases h
        · have hb := structSliceLoop_bounds _ _ _ _ _ h
          have hpos := vt_slice_pos hslice
          omega

theorem structDecodeLoop_pos {d : SharedData} {inner : List Char} {e : Nat}
    {acc : List Variant} {fmt : EncodingFormat} {e2 : Nat} {out : List Variant}
    (hne : inner ≠ []) (h : structDecodeLoop d inner e acc fmt = .ok (e2, out)) :
    e + 1 ≤ e2 := by
  cases inner with
  | nil => exact absurd rfl hne
  | cons c0 rest0 =>
    rw [structDecodeLoop] at h
    split at h
    · cases h
    · split at h
      · cases h
      · next slice hslice =>
        split at h
        · cases h
        · split at h
          · cases h
          · have hb := structDecodeLoop_bounds _ _ _ _ _ _ _ h
            have hpos := vt_slice_pos hslice
            omega

theorem slice_no_excess_aux : ∀ (m : Nat),
    (∀ (d : SharedData) (sig : List Char) (fmt : EncodingFormat),
      3 * sig.length + 1 ≤ m → variant_type.slice_data d sig fmt ≠ .error .excessData) ∧
    (∀ (d : SharedData) (sig : List Char) (fmt : EncodingFormat),
      3 * sig.length ≤ m → Structure.slice_data d sig fmt ≠ .error .excessData) ∧
    (∀ (d : SharedData) (inner : List Char) (e : Nat) (fmt : EncodingFormat),
      3 * inner.length + 2 ≤ m → structSliceLoop d inner e fmt ≠ .error .excessData) := by
  intro m
  induction m with
  | zero =>
    refine ⟨fun d sig fmt hm => by omega, fun d sig fmt hm => ?_, fun d inner e fmt hm => by omega⟩
    have hsig : sig.length = 0 := by omega
    have hnil : sig = [] := List.length_eq_zero.mp hsig
    subst hnil
    intro hcontra
    rw [Structure.slice_data] at hcontra
    split at hcontra
    · simp at hcontra
    · next hguard => exact absurd (Or.inr (by simp)) hguard
  | succ m ih =>
    refine ⟨?_, ?_, ?_⟩
    · -- variant_type.slice_data
      intro d sig fmt hm hcontra
      cases sig with
      | nil => rw [variant_type.slice_data] at hcontra; simp at hcontra
      | cons c rest =>
        rw [variant_type.slice_data] at hcontra
        dsimp only at hcontra
        split at hcontra
        · split at hcontra <;> simp at hcontra
        · split at hcontra
          · split at hcontra
            · simp at hcontra
            · split at hcontra <;> simp at hcontra
          · split at hcontra
            · split at hcontra
              · simp at hcontra
              · split at hcontra <;> simp at hcontra
            · split at hcontra
              · exact ih.2.1 d (c :: rest) fmt
                  (by simp only [List.length_cons] at hm ⊢; omega) hcontra
              · simp at hcontra
    · -- Structure.slice_data
      intro d sig fmt hm hcontra
      rw [Structure.slice_data] at hcontra
      split at hcontra
      · simp at hcontra
      · next hguard =>
        push_neg at hguard
        split at hcontra
        · next e0 heq =>
          have he0 : e0 = .excessData := by
            injection hcontra
          rcases ensure_error heq with h1 | h1 <;> simp [h1] at he0
        · split at hcontra
          · next e0 heq =>
            have he0 : e0 = .excessData := by injection hcontra
            subst he0
            exact ih.2.2 d ((sig.drop 1).dropLast) (padOf d.pos 8) fmt
              (by
                simp only [List.length_dropLast, List.length_drop]
                omega) heq
          · next extracted hloop =>
            split at hcontra
            · next hzero =>
              by_cases hpad : 0 < padOf d.pos 8
              · have hb := structSliceLoop_bounds _ _ _ _ _ hloop
                omega
              · have hinner_ne : (sig.drop 1).dropLast ≠ [] := by
                  intro hx
                  have : ((sig.drop 1).dropLast).length = 0 := by rw [hx]; rfl
                  simp only [List.length_dropLast, List.length_drop] at this
                  omega
                have := structSliceLoop_pos hinner_ne hloop
                omega
            · simp at hcontra
    · -- structSliceLoop
      intro d inner e fmt hm hcontra
      cases inner with
      | nil => rw [structSliceLoop] at hcontra; simp at hcontra
      | cons c0 rest0 =>
        rw [structSliceLoop] at hcontra
        split at hcontra
        · next e0 heq =>
          have he0 : e0 = .excessData := by injection hcontra
          rcases slice_signature_error heq with h1 | h1 <;> simp [h1] at he0
        · next cs hcs =>
          split at hcontra
          · next e0 heq =>
            have he0 : e0 = .excessData := by injection hcontra
            subst he0
            have hcl := slice_signature_length hcs
            simp only [List.length_cons] at hcl hm
            exact ih.1 (d.tail e) cs fmt (by omega) heq
          · next slice hslice =>
            split at hcontra
            · simp at hcontra
            · have hcl := slice_signature_length hcs
              simp only [List.length_cons] at hcl hm
              exact ih.2.2 d ((c0 :: rest0).drop cs.length) (e + slice.len) fmt
                (by simp only [List.length_drop, List.length_cons]; omega) hcontra

theorem vt_slice_no_excess (d : SharedData) (sig : List Char) (fmt : EncodingFormat) :
    variant_type.slice_data d sig fmt ≠ .error .excessData :=
  (slice_no_excess_aux (3 * sig.length + 1)).1 d sig fmt le_rfl

theorem struct_slice_no_excess (d : SharedData) (sig : List Char) (fmt : EncodingFormat) :
    Structure.slice_data d sig fmt ≠ .error .excessData :=
  (slice_no_excess_aux (3 * sig.length)).2.1 d sig fmt le_rfl

theorem decodeFixed_error {d : SharedData} {sz al : Nat} {e : VariantError}
    (h : decodeFixed d sz al = .error e) : e = .insufficientData := by
  rw [decodeFixed] at h
  try dsimp only at h
  split at h
  · cases h; rfl
  · cases h

theorem decodeStrPayload_error {d : SharedData} {e : VariantError}
    (h : decodeStrPayload d = .error e) : e = .insufficientData := by
  rw [decodeStrPayload] at h
  try dsimp only at h
  split at h
  · cases h; rfl
  · split at h
    · cases h; rfl
    · cases h

theorem decodeSigPayload_error {d : SharedData} {e : VariantError}
    (h : decodeSigPayload d = .error e) : e = .insufficientData := by
  rw [decodeSigPayload] at h
  try dsimp only at h
  split at h
  · cases h; rfl
  · split at h
    · cases h; rfl
    · cases h

theorem decode_no_excess_aux : ∀ (m : Nat),
    (∀ (d : SharedData) (sig : List Char) (fmt : EncodingFormat),
      3 * sig.length + 1 ≤ m → Variant.from_data d sig fmt ≠ .error .excessData) ∧
    (∀ (d : SharedData) (sig : List Char) (fmt : EncodingFormat),
      3 * sig.length ≤ m → Structure.decode d sig fmt ≠ .error .excessData) ∧
    (∀ (d : SharedData) (inner : List Char) (e : Nat) (acc : List Variant)
      (fmt : EncodingFormat),
      3 * inner.length + 2 ≤ m → structDecodeLoop d inner e acc fmt ≠ .error .excessData) := by
  intro m
  induction m with
  | zero =>
    refine ⟨fun d sig fmt hm => by omega, fun d sig fmt hm => ?_,
      fun d inner e acc fmt hm => by omega⟩
    have hnil : sig = [] := List.length_eq_zero.mp (by omega)
    subst hnil
    intro hcontra
    rw [Structure.decode] at hcontra
    split at hcontra
    · simp at hcontra
    · next hguard => exact absurd (Or.inr (by simp)) hguard
  | succ m ih =>
    refine ⟨?_, ?_, ?_⟩
    · -- Variant.from_data
      intro d sig fmt hm hcontra
      cases sig with
      | nil => rw [Variant.from_data] at hcontra; simp at hcontra
      | cons c rest =>
        rw [Variant.from_data] at hcontra
        by_cases hc0 : c = 'y'
        ·
          rw [if_pos hc0] at hcontra
          cases hdf : decodeFixed d 1 1 with
            | error e0 =>
              rw [hdf] at hcontra
              simp at hcontra
              have hcl := decodeFixed_error hdf
              rw [hcontra] at hcl
              exact absurd hcl (by simp)
            | ok n =>
              rw [hdf] at hcontra
              simp at hcontra
        ·
          rw [if_neg hc0] at hcontra
          by_cases hc1 : c = 'b'
          ·
            rw [if_pos hc1] at hcontra
            cases hdf : decodeFixed d 4 4 with
              | error e0 =>
                rw [hdf] at hcontra
                simp at hcontra
                have hcl := decodeFixed_error hdf
                rw [hcontra] at hcl
                exact absurd hcl (by simp)
              | ok n =>
                rw [hdf] at hcontra
                replace hcontra :
                    (if n = 0 then Except.ok (Variant.boolean false)
                     else if n = 1 then Except.ok (Variant.boolean true)
                     else Except.error VariantError.incorrectType) =
                      Except.error VariantError.excessData := hcontra
                split_ifs at hcontra <;> simp at hcontra
          ·
            rw [if_neg hc1] at hcontra
            by_cases hc2 : c = 'n'
            ·
              rw [if_pos hc2] at hcontra
              cases hdf : decodeFixed d 2 2 with
                | error e0 =>
                  rw [hdf] at hcontra
                  simp at hcontra
                  have hcl := decodeFixed_error hdf
                  rw [hcontra] at hcl
                  exact absurd hcl (by simp)
                | ok n =>
                  rw [hdf] at hcontra
                  simp at hcontra
            ·
              rw [if_neg hc2] at hcontra
              by_cases hc3 : c = 'q'
              ·
                rw [if_pos hc3] at hcontra
                cases hdf : decodeFixed d 2 2 with
                  | error e0 =>
                    rw [hdf] at hcontra
                    simp at hcontra
                    have hcl := decodeFixed_error hdf
                    rw [hcontra] at hcl
                    exact absurd hcl (by simp)
                  | ok n =>
                    rw [hdf] at hcontra
                    simp at hcontra
              ·
                rw [if_neg hc3] at hcontra
                by_cases hc4 : c = 'i'
                ·
                  rw [if_pos hc4] at hcontra
                  cases hdf : decodeFixed d 4 4 with
                    | error e0 =>
                      rw [hdf] at hcontra
                      simp at hcontra
                      have hcl := decodeFixed_error hdf
                      rw [hcontra] at hcl
                      exact absurd hcl (by simp)
                    | ok n =>
                      rw [hdf] at hcontra
                      simp at hcontra
                ·
                  rw [if_neg hc4] at hcontra
                  by_cases hc5 : c = 'u'
                  ·
                    rw [if_pos hc5] at hcontra
                    cases hdf : decodeFixed d 4 4 with
                      | error e0 =>
                        rw [hdf] at hcontra
                        simp at hcontra
                        have hcl := decodeFixed_error hdf
                        rw [hcontra] at hcl
                        exact absurd hcl (by simp)
                      | ok n =>
                        rw [hdf] at hcontra
                        simp at hcontra
                  ·
                    rw [if_neg hc5] at hcontra
                    by_cases hc6 : c = 'x'
                    ·
                      rw [if_pos hc6] at hcontra
                      cases hdf : decodeFixed d 8 8 with
                        | error e0 =>
                          rw [hdf] at hcontra
                          simp at hcontra
                          have hcl := decodeFixed_error hdf
                          rw [hcontra] at hcl
                          exact absurd hcl (by simp)
                        | ok n =>
                          rw [hdf] at hcontra
                          simp at hcontra
                    ·
                      rw [if_neg hc6] at hcontra
                      by_cases hc7 : c = 't'
                      ·
                        rw [if_pos hc7] at hcontra
                        cases hdf : decodeFixed d 8 8 with
                          | error e0 =>
                            rw [hdf] at hcontra
                            simp at hcontra
                            have hcl := decodeFixed_error hdf
                            rw [hcontra] at hcl
                            exact absurd hcl (by simp)
                          | ok n =>
                            rw [hdf] at hcontra
                            simp at hcontra
                      ·
                        rw [if_neg hc7] at hcontra
                        by_cases hc8 : c = 'd'
                        ·
                          rw [if_pos hc8] at hcontra
                          cases hdf : decodeFixed d 8 8 with
                            | error e0 =>
                              rw [hdf] at hcontra
                              simp at hcontra
                              have hcl := decodeFixed_error hdf
                              rw [hcontra] at hcl
                              exact absurd hcl (by simp)
                            | ok n =>
                              rw [hdf] at hcontra
                              simp at hcontra
                        ·
                          rw [if_neg hc8] at hcontra
                          by_cases hc9 : c = 'h'
                          ·
                            rw [if_pos hc9] at hcontra
                            cases hdf : decodeFixed d 4 4 with
                              | error e0 =>
                                rw [hdf] at hcontra
                                simp at hcontra
                                have hcl := decodeFixed_error hdf
                                rw [hcontra] at hcl
                                exact absurd hcl (by simp)
                              | ok n =>
                                rw [hdf] at hcontra
                                simp at hcontra
                          ·
                            rw [if_neg hc9] at hcontra
                            by_cases hc10 : c = 's'
                            ·
                              rw [if_pos hc10] at hcontra
                              cases hdf : decodeStrPayload d with
                                | error e0 =>
                                  rw [hdf] at hcontra
                                  simp at hcontra
                                  have hcl := decodeStrPayload_error hdf
                                  rw [hcontra] at hcl
                                  exact absurd hcl (by simp)
                                | ok bs =>
                                  rw [hdf] at hcontra
                                  simp at hcontra
                            ·
                              rw [if_neg hc10] at hcontra
                              by_cases hc11 : c = 'o'
                              ·
                                rw [if_pos hc11] at hcontra
                                cases hdf : decodeStrPayload d with
                                  | error e0 =>
                                    rw [hdf] at hcontra
                                    simp at hcontra
                                    have hcl := decodeStrPayload_error hdf
                                    rw [hcontra] at hcl
                                    exact absurd hcl (by simp)
                                  | ok bs =>
                                    rw [hdf] at hcontra
                                    simp at hcontra
                              ·
                                rw [if_neg hc11] at hcontra
                                by_cases hc12 : c = 'g'
                                ·
                                  rw [if_pos hc12] at hcontra
                                  cases hdf : decodeSigPayload d with
                                    | error e0 =>
                                      rw [hdf] at hcontra
                                      simp at hcontra
                                      have hcl := decodeSigPayload_error hdf
                                      rw [hcontra] at hcl
                                      exact absurd hcl (by simp)
                                    | ok bs =>
                                      rw [hdf] at hcontra
                                      simp at hcontra
                                ·
                                  rw [if_neg hc12] at hcontra
                                  by_cases hc13 : c = '('
                                  ·
                                    rw [if_pos hc13] at hcontra
                                    cases hsd : Structure.decode d (c :: rest) fmt with
                                      | error e0 =>
                                        rw [hsd] at hcontra
                                        simp at hcontra
                                        rw [hcontra] at hsd
                                        exact ih.2.1 d (c :: rest) fmt
                                          (by simp only [List.length_cons] at hm ⊢; omega) hsd
                                      | ok fields =>
                                        rw [hsd] at hcontra
                                        simp at hcontra
                                  ·
                                    rw [if_neg hc13] at hcontra
                                    simp at hcontra
    · -- Structure.decode
      intro d sig fmt hm hcontra
      rw [Structure.decode] at hcontra
      split at hcontra
      · simp at hcontra
      · next hguard =>
        push_neg at hguard
        cases hens : Structure.ensure_correct_signature sig with
        | error e0 =>
          rw [hens] at hcontra
          simp at hcontra
          rcases ensure_error hens with h1 | h1 <;> simp [h1] at hcontra
        | ok u =>
          rw [hens] at hcontra
          cases hloop : structDecodeLoop (d.tail (padOf d.pos 8))
              ((sig.drop 1).dropLast) 0 [] fmt with
          | error e0 =>
            rw [hloop] at hcontra
            simp at hcontra
            rw [hcontra] at hloop
            exact ih.2.2 (d.tail (padOf d.pos 8)) ((sig.drop 1).dropLast) 0 [] fmt
              (by simp only [List.length_dropLast, List.length_drop]; omega) hloop
          | ok pr =>
            obtain ⟨extracted, fields⟩ := pr
            rw [hloop] at hcontra
            replace hcontra :
                (if extracted = 0 then Except.error VariantError.excessData
                 else Except.ok fields) = Except.error VariantError.excessData := hcontra
            split_ifs at hcontra with hzero
            have hinner_ne : (sig.drop 1).dropLast ≠ [] := by
              intro hx
              have hxl : ((sig.drop 1).dropLast).length = 0 := by rw [hx]; rfl
              simp only [List.length_dropLast, List.length_drop] at hxl
              omega
            have := structDecodeLoop_pos hinner_ne hloop
            omega
    · -- structDecodeLoop
      intro d inner e acc fmt hm hcontra
      cases inner with
      | nil => rw [structDecodeLoop] at hcontra; simp at hcontra
      | cons c0 rest0 =>
        rw [structDecodeLoop] at hcontra
        split at hcontra
        · next e0 heq =>
          have he0 : e0 = VariantError.excessData := by injection hcontra
          rcases slice_signature_error heq with h1 | h1 <;> simp [h1] at he0
        · next cs hcs =>
          split at hcontra
          · next e0 heq =>
            have he0 : e0 = VariantError.excessData := by injection hcontra
            subst he0
            exact vt_slice_no_excess (d.tail e) cs fmt heq
          · next slice hslice =>
            split at hcontra
            · simp at hcontra
            · split at hcontra
              · next e0 heq =>
                have he0 : e0 = VariantError.excessData := by injection hcontra
                subst he0
                have hcl := slice_signature_length hcs
                simp only [List.length_cons] at hcl hm
                exact ih.1 slice cs fmt (by omega) heq
              · have hcl := slice_signature_length hcs
                simp only [List.length_cons] at hcl hm
                exact ih.2.2 d ((c0 :: rest0).drop cs.length) (e + slice.len) _ fmt
                  (by simp only [List.length_drop, List.length_cons]; omega) hcontra

/-- Claim C5 (amended): `Structure::slice_data` and `Structure::decode`
never fail with `ExcessData` — the zero-children signature `()` is rejected
earlier by the length guard with `InsufficientData` (so the
`extracted == 0` check is unreachable), and `InsufficientData` is the error
produced whenever the accumulated consumed length would exceed the
available data. -/
theorem structure_never_excess_data :
    (∀ (data : SharedData) (fmt : EncodingFormat),
      Structure.slice_data data ['(', ')'] fmt = .error .insufficientData ∧
        Structure.decode data ['(', ')'] fmt = .error .insufficientData) ∧
      ∀ (data : SharedData) (sig : List Char) (fmt : EncodingFormat),
        Structure.slice_data data sig fmt ≠ .error .excessData ∧
          Structure.decode data sig fmt ≠ .error .excessData := by
  constructor
  · intro data fmt
    exact slice_decode_short_sig data fmt ['(', ')'] (by decide)
  · intro data sig fmt
    exact ⟨struct_slice_no_excess data sig fmt,
      (decode_no_excess_aux (3 * sig.length)).2.1 data sig fmt le_rfl⟩
